import Mathlib

/-!
Verification of the ATOMreservations room-availability and reservation engine.

The definitions below are a shallow embedding of the Python sources:
* `src/backend/calendar.py` — the nested linked-list occupancy ledger
  (`MonthNode`/`DayNode`, `store_booking_range`);
* `src/backend/reservation_system.py` — `ReservationSystem`
  (`check_availability`, `get_available_room_types`,
  `generate_reservation_id`, `make_reservation`);
* `src/backend/database.py` — `Room` and the default `Hotel` inventory;
* `src/backend/reservation_controller.py` — `ReservationController`
  (`make_reservation`, `cancel_reservation`).

Linked lists (`next_month` / `next_day` pointers) are embedded as Lean
`List`s; in-place mutation becomes functional update; the module-level
mutable state (`calendar_head`, `reservations_db`, `reservation_counter`)
becomes explicit state passing.  The unbounded `while True` loops are
embedded as fuel-indexed recursions returning `Option` (`none` models a
loop that has not reached its exit within the given fuel, i.e. potential
divergence); theorems establish that enough fuel exists for every
well-formed range, so results do not depend on the fuel chosen.
-/

/-- Node of the per-month day list (`calendar.py`, class `DayNode`): a day
number together with the `(room_type, quantity)` booking pairs of that day.
The `next_day` pointer is represented by the enclosing `List`. -/
structure DayNode where
  day_number : Nat
  bookings : List (String × Nat)
deriving Repr, DecidableEq

/-- Node of the month list (`calendar.py`, class `MonthNode`): a month
number and its day list (`day_list_head`).  The `next_month` pointer is
represented by the enclosing `List`. -/
structure MonthNode where
  month_number : Nat
  day_list_head : List DayNode
deriving Repr, DecidableEq

/-- The calendar linked list headed by `calendar_head`; `[]` is Python's
`None` head. -/
abbrev Calendar := List MonthNode

/-- Booking update block of `store_booking_range` (`calendar.py` lines
93-100): every pair whose room type equals `name` has its quantity
incremented; if no pair matches, `(name, 1)` is appended. -/
def update_bookings (name : String) (bs : List (String × Nat)) : List (String × Nat) :=
  if bs.any (fun p => p.1 == name) then
    bs.map (fun p => if p.1 == name then (p.1, p.2 + 1) else p)
  else bs ++ [(name, 1)]

/-- Day-node find-or-create walk of `store_booking_range` (`calendar.py`
lines 80-91): walk while `day_number < day`, update the node if one with
`day_number == day` is found, otherwise insert a fresh node (whose booking
list is then updated) at the walk's stopping point. -/
def store_day (day : Nat) (name : String) : List DayNode → List DayNode
  | [] => [⟨day, update_bookings name []⟩]
  | d :: rest =>
    if d.day_number < day then d :: store_day day name rest
    else if d.day_number = day then ⟨d.day_number, update_bookings name d.bookings⟩ :: rest
    else ⟨day, update_bookings name []⟩ :: d :: rest

/-- Month-node find-or-create walk of `store_booking_range` (`calendar.py`
lines 64-78) followed by the day-level work: walk while
`month_number < month`, descend into the matching node or insert a fresh
one at the stopping point.  (The `if not calendar_head` special case of the
source creates the same node the empty-list branch creates here.) -/
def store_date (month day : Nat) (name : String) : Calendar → Calendar
  | [] => [⟨month, store_day day name []⟩]
  | m :: rest =>
    if m.month_number < month then m :: store_date month day name rest
    else if m.month_number = month then
      ⟨m.month_number, store_day day name m.day_list_head⟩ :: rest
    else ⟨month, store_day day name []⟩ :: m :: rest

/-- The `while True` loop of `store_booking_range` (`calendar.py` lines
38-110), fuel-indexed.  Each iteration stores one date, stops when the end
date is reached, and otherwise advances by one day under the 30-day-month
rule (`day > 30 → day = 1, month += 1`).  The Python `room_type` dict is
passed as its `"name"` entry, the only field the function reads. -/
def store_booking_range (fuel : Nat) (start_month start_day end_month end_day : Nat)
    (name : String) (calendar_head : Calendar) : Option Calendar :=
  match fuel with
  | 0 => none
  | fuel + 1 =>
    let cal2 := store_date start_month start_day name calendar_head
    if start_month = end_month ∧ start_day = end_day then some cal2
    else if start_day + 1 > 30 then
      store_booking_range fuel (start_month + 1) 1 end_month end_day name cal2
    else
      store_booking_range fuel start_month (start_day + 1) end_month end_day name cal2

/-- First booking pair matching `name`, defaulting to quantity 0. -/
def lookup_booking (name : String) : List (String × Nat) → Nat
  | [] => 0
  | p :: rest => if p.1 == name then p.2 else lookup_booking name rest

/-- Month-list search: walk while `month_number < month`, succeed on an
exact match at the stopping point.  This mirrors the node search of
`store_booking_range` on the chronologically ordered lists the ledger
maintains. -/
def find_month (month : Nat) : Calendar → Option MonthNode
  | [] => none
  | m :: rest =>
    if m.month_number < month then find_month month rest
    else if m.month_number = month then some m else none

/-- Day-list search, mirroring `find_month` one level down. -/
def find_day (day : Nat) : List DayNode → Option DayNode
  | [] => none
  | d :: rest =>
    if d.day_number < day then find_day day rest
    else if d.day_number = day then some d else none

/-- Booked quantity of a day list: the looked-up day node's count for
`name`, `0` when the day has no node or no matching booking. -/
def get_in_days (day : Nat) (name : String) (l : List DayNode) : Nat :=
  match find_day day l with
  | none => 0
  | some dn => lookup_booking name dn.bookings

/-- Modelled from the spec: `get_booked_quantity` is imported from
`backend.calendar` by `reservation_system.py` and `room_manager.py` but is
missing from `src/backend/calendar.py`.  Per the spec (§4.2),
`bookedCount(date, roomTypeName)` returns the stored count and `0` for any
date/type with no entry, with no error conditions.  The lookup walks the
month and day lists exactly as `store_booking_range` searches for its
nodes, which on the chronologically ordered, non-duplicated lists the
ledger maintains (spec §4.2) is the sparse-mapping semantics. -/
def get_booked_quantity (month day : Nat) (name : String) (calendar_head : Calendar) : Nat :=
  match find_month month calendar_head with
  | none => 0
  | some mn => get_in_days day name mn.day_list_head

example : store_booking_range 4 1 29 2 2 "Single Room" [] =
    some [⟨1, [⟨29, [("Single Room", 1)]⟩, ⟨30, [("Single Room", 1)]⟩]⟩,
          ⟨2, [⟨1, [("Single Room", 1)]⟩, ⟨2, [("Single Room", 1)]⟩]⟩] := by decide

example : get_booked_quantity 1 30 "Single Room"
    [⟨1, [⟨29, [("Single Room", 1)]⟩, ⟨30, [("Single Room", 1)]⟩]⟩] = 1 := by decide

/-- Room record (`database.py`, class `Room`). -/
structure Room where
  room_id : Nat
  room_type : String
  beds : Nat
  max_guests : Nat
  price : Nat
  is_available : Bool
deriving Repr, DecidableEq

/-- Consecutive identical rooms, as produced by the `for _ in range(count)`
loops of `Hotel.__init__`. -/
def mk_rooms (start_id count : Nat) (room_type : String) (beds max_guests price : Nat) :
    List Room :=
  (List.range count).map (fun i => ⟨start_id + i, room_type, beds, max_guests, price, true⟩)

/-- The default `Hotel()` inventory (`database.py`, `Hotel.__init__`):
5 Single Rooms, 10 Double Rooms, 6 Family Rooms, 3 VIP Suites, ids from
101. -/
def hotel_rooms : List Room :=
  mk_rooms 101 5 "Single Room" 1 2 100 ++ mk_rooms 106 10 "Double Room" 2 4 150 ++
    mk_rooms 116 6 "Family Room" 3 6 200 ++ mk_rooms 122 3 "VIP Suite" 1 3 300

/-- Room-type unit count (`reservation_system.py` line 28):
`sum(1 for room in self.hotel.rooms if room.room_type == room_type)`. -/
def total_quantity (rooms : List Room) (room_type : String) : Nat :=
  rooms.countP (fun r => r.room_type == room_type)

/-- The `while True` loop of `ReservationSystem.check_availability`
(`reservation_system.py` lines 32-46), fuel-indexed: return `False` as soon
as a date has `booked >= total_quantity`, stop with `True` on the end date,
otherwise advance one day under the 30-day-month rule. -/
def check_availability_loop (fuel total : Nat) (room_type : String)
    (month day end_month end_day : Nat) (cal : Calendar) : Option Bool :=
  match fuel with
  | 0 => none
  | fuel + 1 =>
    if total ≤ get_booked_quantity month day room_type cal then some false
    else if month = end_month ∧ day = end_day then some true
    else if day + 1 > 30 then
      check_availability_loop fuel total room_type (month + 1) 1 end_month end_day cal
    else
      check_availability_loop fuel total room_type month (day + 1) end_month end_day cal

/-- `ReservationSystem.check_availability` (`reservation_system.py` lines
20-46): computes the room type's unit count from the hotel room list and
runs the per-date loop from `check_in` to `check_out`. -/
def check_availability (fuel : Nat) (rooms : List Room) (room_type : String)
    (check_in check_out : Nat × Nat) (cal : Calendar) : Option Bool :=
  check_availability_loop fuel (total_quantity rooms room_type) room_type
    check_in.1 check_in.2 check_out.1 check_out.2 cal

/-- Decimal rendering zero-padded to `width`, the semantics of Python's
`f"{n:0{width}d}"`: the decimal digits of `n`, preceded by `'0'` characters
only when the digit string is shorter than `width`. -/
def format_pad (width n : Nat) : String :=
  String.mk (List.replicate (width - (Nat.toDigits 10 n).length) '0' ++ Nat.toDigits 10 n)

/-- Reservation ID issued for counter value `n`
(`ReservationSystem.generate_reservation_id`, `reservation_system.py` lines
69-74): `f"R{n:04d}"`. -/
def idString (n : Nat) : String := "R" ++ format_pad 4 n

/-- `generate_reservation_id` as a function of the module-level
`reservation_counter`: returns the ID for the current counter and the
incremented counter. -/
def generate_reservation_id (counter : Nat) : String × Nat :=
  (idString counter, counter + 1)

example : idString 1 = "R0001" := by decide
example : idString 12 = "R0012" := by decide
example : idString 9999 = "R9999" := by decide
example : idString 10000 = "R10000" := by decide

/-- Stored reservation record (`reservation_system.py` lines 89-94): the
dict stored in `reservations_db`, with the customer object as an opaque
reference. -/
structure Res where
  customer : String
  room_type : String
  check_in : Nat × Nat
  check_out : Nat × Nat
deriving Repr, DecidableEq

/-- Mutable state of a `ReservationSystem` instance together with the
module-level `reservation_counter` (initially 1). -/
structure SysState where
  calendar_head : Calendar
  reservations_db : List (String × Res)
  counter : Nat
deriving Repr, DecidableEq

/-- `ReservationSystem.make_reservation` (`reservation_system.py` lines
76-97): on an availability failure return `None` (`some (none, st)`) and
leave every component of the state unchanged; on success allocate the next
ID, store the record, and apply `store_booking_range` to the calendar.
The outer `none` models a call that never returns (a loop that exhausts
its fuel). -/
def make_reservation (fuel : Nat) (rooms : List Room) (customer room_type : String)
    (check_in check_out : Nat × Nat) (st : SysState) : Option (Option String × SysState) :=
  match check_availability fuel rooms room_type check_in check_out st.calendar_head with
  | none => none
  | some false => some (none, st)
  | some true =>
    let rid := (generate_reservation_id st.counter).1
    match store_booking_range fuel check_in.1 check_in.2 check_out.1 check_out.2 room_type
        st.calendar_head with
    | none => none
    | some cal2 =>
      some (some rid,
        ⟨cal2, (rid, ⟨customer, room_type, check_in, check_out⟩) :: st.reservations_db,
          st.counter + 1⟩)

/-- In-memory reservation model of the controller
(`reservation_class.py` / `reservation_controller.py`): dates are stored as
`"MM-DD"` strings. -/
structure CtrlReservation where
  reservation_id : String
  customer_email : String
  room_type : String
  check_in : String
  check_out : String
deriving Repr, DecidableEq

/-- State of a `ReservationController` with its owned `ReservationSystem`. -/
structure CtrlState where
  sys : SysState
  reservations : List CtrlReservation
deriving Repr, DecidableEq

/-- Date formatting of `ReservationController.make_reservation`
(`reservation_controller.py` lines 73-74): `f"{m:02d}-{d:02d}"`. -/
def fmt_date (d : Nat × Nat) : String := format_pad 2 d.1 ++ "-" ++ format_pad 2 d.2

/-- `ReservationController.make_reservation` (`reservation_controller.py`
lines 38-88): reject a falsy customer, delegate to
`ReservationSystem.make_reservation`, and on success append the
`Reservation` model to the in-memory list.  The customer-CSV bookkeeping
and reservation-CSV persistence are out-of-scope external collaborators
(spec §1) and leave the engine state untouched. -/
def ctrl_make_reservation (fuel : Nat) (rooms : List Room) (customer room_type : String)
    (check_in check_out : Nat × Nat) (st : CtrlState) : Option (Option String × CtrlState) :=
  if customer == "" then some (none, st)
  else
    match make_reservation fuel rooms customer room_type check_in check_out st.sys with
    | none => none
    | some (none, sys2) => some (none, ⟨sys2, st.reservations⟩)
    | some (some rid, sys2) =>
      some (some rid,
        ⟨sys2, st.reservations ++
          [⟨rid, customer, room_type, fmt_date check_in, fmt_date check_out⟩]⟩)

/-- `ReservationController.cancel_reservation` (`reservation_controller.py`
lines 90-115).  The `ReservationSystem` class of `reservation_system.py`
defines no `cancel_reservation` method, so the `hasattr`-guarded system
call is skipped and `cancelled_by_system` stays `False`; the call filters
the in-memory list and reports success exactly when the list shrank.  The
system state — in particular the occupancy ledger — is returned as it
was. -/
def cancel_reservation (st : CtrlState) (reservation_id : String) : CtrlState × Bool :=
  let remaining := st.reservations.filter (fun r => r.reservation_id != reservation_id)
  if remaining.length < st.reservations.length then (⟨st.sys, remaining⟩, true)
  else (st, false)

/-- One public mutating operation of the engine: a `create` (with the fuel
bounding its date loops) or a `cancel`. -/
inductive Op where
  | create (fuel : Nat) (customer room_type : String) (check_in check_out : Nat × Nat)
  | cancel (reservation_id : String)

/-- Apply one operation to the controller state.  A `create` whose loops
never exit (`none`) yields no observable post-state; the state is kept. -/
def apply_op (rooms : List Room) (st : CtrlState) : Op → CtrlState
  | Op.create fuel c rt ci co =>
    match ctrl_make_reservation fuel rooms c rt ci co st with
    | none => st
    | some (_, st2) => st2
  | Op.cancel rid => (cancel_reservation st rid).1

/-- Fresh engine: empty ledger, empty registry, counter 1. -/
def init_state : CtrlState := ⟨⟨[], [], 1⟩, []⟩

/-- Run a sequence of operations from the fresh engine. -/
def run (rooms : List Room) (ops : List Op) : CtrlState :=
  ops.foldl (apply_op rooms) init_state

/-- Apply one operation while logging each successfully issued reservation
ID. -/
def apply_op_log (rooms : List Room) (p : CtrlState × List String) (op : Op) :
    CtrlState × List String :=
  match op with
  | Op.create fuel c rt ci co =>
    match ctrl_make_reservation fuel rooms c rt ci co p.1 with
    | none => p
    | some (none, st2) => (st2, p.2)
    | some (some rid, st2) => (st2, p.2 ++ [rid])
  | Op.cancel rid => ((cancel_reservation p.1 rid).1, p.2)

/-- Run a sequence of operations from the fresh engine, collecting the
issued IDs in order. -/
def run_log (rooms : List Room) (ops : List Op) : CtrlState × List String :=
  ops.foldl (apply_op_log rooms) (init_state, [])

example : (run_log hotel_rooms
    [Op.create 3 "a" "Single Room" (3, 10) (3, 12),
     Op.create 3 "b" "Single Room" (3, 10) (3, 12)]).2 = ["R0001", "R0002"] := by decide

/-- Looking up a booking list in which no pair carries the key yields the
default 0. -/
theorem lookup_booking_eq_zero (name : String) (bs : List (String × Nat))
    (h : ∀ p ∈ bs, p.1 ≠ name) : lookup_booking name bs = 0 := by
  induction bs with
  | nil => rfl
  | cons p rest ih =>
    have hp : (p.1 == name) = false := by
      simp [h p (List.mem_cons_self p rest)]
    simp only [lookup_booking, hp, if_false, Bool.false_eq_true]
    exact ih fun q hq => h q (List.mem_cons_of_mem p hq)

/-- Lookup distributes over append: the left list is consulted first. -/
theorem lookup_booking_append (name : String) (bs l2 : List (String × Nat)) :
    lookup_booking name (bs ++ l2) =
      if bs.any (fun p => p.1 == name) then lookup_booking name bs
      else lookup_booking name l2 := by
  induction bs with
  | nil => simp [lookup_booking]
  | cons p rest ih =>
    by_cases hp : p.1 = name
    · have hb : (p.1 == name) = true := by simp [hp]
      simp [lookup_booking, hb, List.any_cons]
    · have hb : (p.1 == name) = false := by simp [hp]
      simp only [List.cons_append, lookup_booking, hb, Bool.false_eq_true, if_false,
        List.any_cons, Bool.false_or]
      exact ih

/-- Effect of the increment-matching-pairs map on a lookup: the looked-up
key gains 1 exactly when it is the incremented key and occurs in the
list. -/
theorem lookup_booking_map_incr (name name2 : String) (bs : List (String × Nat)) :
    lookup_booking name2 (bs.map (fun p => if p.1 == name then (p.1, p.2 + 1) else p)) =
      lookup_booking name2 bs +
        (if name2 = name ∧ (bs.any (fun p => p.1 == name2)) = true then 1 else 0) := by
  induction bs with
  | nil => simp [lookup_booking]
  | cons p rest ih =>
    by_cases hpn : p.1 = name
    · have hbn : (p.1 == name) = true := by simp [hpn]
      by_cases hpn2 : p.1 = name2
      · have hbn2 : (p.1 == name2) = true := by simp [hpn2]
        have hnn : name2 = name := hpn2 ▸ hpn
        simp [lookup_booking, hbn, hbn2, List.any_cons, hnn]
      · have hbn2 : (p.1 == name2) = false := by simp [hpn2]
        have hnn : ¬(name2 = name) := fun h => hpn2 (h ▸ hpn)
        simp only [List.map_cons, hbn, if_true, lookup_booking, hbn2, Bool.false_eq_true,
          if_false, List.any_cons, Bool.false_or, ih, hnn, false_and]
    · have hbn : (p.1 == name) = false := by simp [hpn]
      by_cases hpn2 : p.1 = name2
      · have hbn2 : (p.1 == name2) = true := by simp [hpn2]
        have hnn : ¬(name2 = name) := fun h => hpn (hpn2.symm ▸ h ▸ rfl)
        simp [lookup_booking, hbn, hbn2, List.any_cons, hnn]
      · have hbn2 : (p.1 == name2) = false := by simp [hpn2]
        simp only [List.map_cons, hbn, Bool.false_eq_true, if_false, lookup_booking, hbn2,
          List.any_cons, Bool.false_or]
        exact ih

/-- Effect of `update_bookings` on a lookup: only the updated room type's
count changes, and it changes by exactly 1. -/
theorem lookup_update_bookings (name name2 : String) (bs : List (String × Nat)) :
    lookup_booking name2 (update_bookings name bs) =
      lookup_booking name2 bs + (if name2 = name then 1 else 0) := by
  unfold update_bookings
  by_cases hany : (bs.any (fun p => p.1 == name)) = true
  · rw [if_pos hany, lookup_booking_map_incr]
    by_cases hn : name2 = name
    · subst hn
      simp [hany]
    · simp [hn]
  · rw [if_neg hany, lookup_booking_append]
    have hnone : ∀ p ∈ bs, p.1 ≠ name := by
      intro p hp hcontra
      exact hany (List.any_eq_true.mpr ⟨p, hp, by simp [hcontra]⟩)
    by_cases hn : name2 = name
    · subst hn
      have hz : lookup_booking name2 bs = 0 := lookup_booking_eq_zero _ _ hnone
      have hb : (name2 == name2) = true := by simp
      simp only [Bool.not_eq_true] at hany
      simp [hany, hz, lookup_booking, hb]
    · by_cases hmem : (bs.any (fun p => p.1 == name2)) = true
      · simp [hmem, hn]
      · have hz : lookup_booking name2 bs = 0 := by
          refine lookup_booking_eq_zero _ _ fun p hp hcontra => ?_
          exact hmem (List.any_eq_true.mpr ⟨p, hp, by simp [hcontra]⟩)
        have hne : (name == name2) = false := by
          simp
          exact fun h => hn h.symm
        simp only [Bool.not_eq_true] at hmem
        simp [hmem, hn, hz, lookup_booking, hne]

/-- Stepping lemma: a head day node below the key is skipped by the lookup. -/
theorem get_in_days_cons_lt (d2 : Nat) (name2 : String) (n : DayNode) (l : List DayNode)
    (h : n.day_number < d2) : get_in_days d2 name2 (n :: l) = get_in_days d2 name2 l := by
  simp [get_in_days, find_day, h]

theorem get_in_days_cons_eq (d2 : Nat) (name2 : String) (n : DayNode) (l : List DayNode)
    (h : n.day_number = d2) :
    get_in_days d2 name2 (n :: l) = lookup_booking name2 n.bookings := by
  simp [get_in_days, find_day, h]

theorem get_in_days_cons_gt (d2 : Nat) (name2 : String) (n : DayNode) (l : List DayNode)
    (h : d2 < n.day_number) : get_in_days d2 name2 (n :: l) = 0 := by
  have h1 : ¬(n.day_number < d2) := by omega
  have h2 : ¬(n.day_number = d2) := by omega
  simp [get_in_days, find_day, h1, h2]

theorem get_in_days_store_day (d d2 : Nat) (name name2 : String) (l : List DayNode) :
    get_in_days d2 name2 (store_day d name l) =
      get_in_days d2 name2 l + (if d2 = d ∧ name2 = name then 1 else 0) := by
  induction l with
  | nil =>
    rcases Nat.lt_trichotomy d d2 with h | h | h
    · have h2 : ¬(d2 = d) := by omega
      simp [store_day, get_in_days, find_day, h, h2]
    · subst h
      by_cases hn : name2 = name
      · simp [store_day, get_in_days, find_day, lookup_update_bookings, lookup_booking, hn]
      · simp [store_day, get_in_days, find_day, lookup_update_bookings, lookup_booking, hn]
        exact fun hcontra => hn hcontra.symm
    · have h2 : ¬(d < d2) := by omega
      have h3 : ¬(d = d2) := by omega
      have h4 : ¬(d2 = d) := by omega
      simp [store_day, get_in_days, find_day, h2, h3, h4]
  | cons x rest ih =>
    by_cases hc1 : x.day_number < d
    · have hs : store_day d name (x :: rest) = x :: store_day d name rest := by
        simp [store_day, hc1]
      rw [hs]
      rcases Nat.lt_trichotomy x.day_number d2 with h | h | h
      · rw [get_in_days_cons_lt d2 name2 x (store_day d name rest) h,
          get_in_days_cons_lt d2 name2 x rest h]
        exact ih
      · rw [get_in_days_cons_eq d2 name2 x (store_day d name rest) h,
          get_in_days_cons_eq d2 name2 x rest h]
        have hne : ¬(d2 = d) := by omega
        simp [hne]
      · rw [get_in_days_cons_gt d2 name2 x (store_day d name rest) h,
          get_in_days_cons_gt d2 name2 x rest h]
        have hne : ¬(d2 = d) := by omega
        simp [hne]
    · by_cases hc2 : x.day_number = d
      · have hs : store_day d name (x :: rest) =
            ⟨x.day_number, update_bookings name x.bookings⟩ :: rest := by
          simp [store_day, hc1, hc2]
        rw [hs]
        rcases Nat.lt_trichotomy x.day_number d2 with h | h | h
        · rw [get_in_days_cons_lt d2 name2 ⟨x.day_number, update_bookings name x.bookings⟩ rest h,
            get_in_days_cons_lt d2 name2 x rest h]
          have hne : ¬(d2 = d) := by omega
          simp [hne]
        · rw [get_in_days_cons_eq d2 name2 ⟨x.day_number, update_bookings name x.bookings⟩ rest h,
            get_in_days_cons_eq d2 name2 x rest h]
          rw [lookup_update_bookings]
          have hd : d2 = d := by omega
          simp [hd]
        · rw [get_in_days_cons_gt d2 name2 ⟨x.day_number, update_bookings name x.bookings⟩ rest h,
            get_in_days_cons_gt d2 name2 x rest h]
          have hne : ¬(d2 = d) := by omega
          simp [hne]
      · have hs : store_day d name (x :: rest) =
            ⟨d, update_bookings name []⟩ :: x :: rest := by
          simp [store_day, hc1, hc2]
        rw [hs]
        rcases Nat.lt_trichotomy d d2 with h | h | h
        · rw [get_in_days_cons_lt d2 name2 ⟨d, update_bookings name []⟩ (x :: rest) h]
          have hne : ¬(d2 = d) := by omega
          simp [hne]
        · rw [get_in_days_cons_eq d2 name2 ⟨d, update_bookings name []⟩ (x :: rest) h]
          rw [lookup_update_bookings]
          have hgtx : d2 < x.day_number := by omega
          rw [get_in_days_cons_gt d2 name2 x rest hgtx]
          have hd : d2 = d := by omega
          simp [hd, lookup_booking]
        · rw [get_in_days_cons_gt d2 name2 ⟨d, update_bookings name []⟩ (x :: rest) h]
          have hgtx : d2 < x.day_number := by omega
          rw [get_in_days_cons_gt d2 name2 x rest hgtx]
          have hne : ¬(d2 = d) := by omega
          simp [hne]

/-- Stepping lemma: a head month node below the key is skipped by the lookup. -/
theorem get_booked_cons_lt (m2 d2 : Nat) (name2 : String) (n : MonthNode) (cal : Calendar)
    (h : n.month_number < m2) :
    get_booked_quantity m2 d2 name2 (n :: cal) = get_booked_quantity m2 d2 name2 cal := by
  simp [get_booked_quantity, find_month, h]

theorem get_booked_cons_eq (m2 d2 : Nat) (name2 : String) (n : MonthNode) (cal : Calendar)
    (h : n.month_number = m2) :
    get_booked_quantity m2 d2 name2 (n :: cal) = get_in_days d2 name2 n.day_list_head := by
  simp [get_booked_quantity, find_month, h]

theorem get_booked_cons_gt (m2 d2 : Nat) (name2 : String) (n : MonthNode) (cal : Calendar)
    (h : m2 < n.month_number) :
    get_booked_quantity m2 d2 name2 (n :: cal) = 0 := by
  have h1 : ¬(n.month_number < m2) := by omega
  have h2 : ¬(n.month_number = m2) := by omega
  simp [get_booked_quantity, find_month, h1, h2]

theorem get_in_days_nil (d2 : Nat) (name2 : String) : get_in_days d2 name2 [] = 0 := rfl

theorem get_booked_store_date (m d m2 d2 : Nat) (name name2 : String) (cal : Calendar) :
    get_booked_quantity m2 d2 name2 (store_date m d name cal) =
      get_booked_quantity m2 d2 name2 cal +
        (if m2 = m ∧ d2 = d ∧ name2 = name then 1 else 0) := by
  induction cal with
  | nil =>
    rcases Nat.lt_trichotomy m m2 with h | h | h
    · have hne : ¬(m2 = m) := by omega
      have hc : store_date m d name [] = [⟨m, store_day d name []⟩] := rfl
      rw [hc, get_booked_cons_lt m2 d2 name2 ⟨m, store_day d name []⟩ [] h]
      simp [get_booked_quantity, find_month, hne]
    · have hc : store_date m d name [] = [⟨m, store_day d name []⟩] := rfl
      rw [hc, get_booked_cons_eq m2 d2 name2 ⟨m, store_day d name []⟩ [] h]
      rw [show ((⟨m, store_day d name []⟩ : MonthNode).day_list_head = store_day d name []) from rfl]
      rw [get_in_days_store_day, get_in_days_nil]
      have hm : m2 = m := by omega
      simp [get_booked_quantity, find_month, hm]
    · have hc : store_date m d name [] = [⟨m, store_day d name []⟩] := rfl
      rw [hc, get_booked_cons_gt m2 d2 name2 ⟨m, store_day d name []⟩ [] h]
      have hne : ¬(m2 = m) := by omega
      simp [get_booked_quantity, find_month, hne]
  | cons x rest ih =>
    by_cases hc1 : x.month_number < m
    · have hs : store_date m d name (x :: rest) = x :: store_date m d name rest := by
        simp [store_date, hc1]
      rw [hs]
      rcases Nat.lt_trichotomy x.month_number m2 with h | h | h
      · rw [get_booked_cons_lt m2 d2 name2 x (store_date m d name rest) h,
          get_booked_cons_lt m2 d2 name2 x rest h]
        exact ih
      · rw [get_booked_cons_eq m2 d2 name2 x (store_date m d name rest) h,
          get_booked_cons_eq m2 d2 name2 x rest h]
        have hne : ¬(m2 = m) := by omega
        simp [hne]
      · rw [get_booked_cons_gt m2 d2 name2 x (store_date m d name rest) h,
          get_booked_cons_gt m2 d2 name2 x rest h]
        have hne : ¬(m2 = m) := by omega
        simp [hne]
    · by_cases hc2 : x.month_number = m
      · have hs : store_date m d name (x :: rest) =
            ⟨x.month_number, store_day d name x.day_list_head⟩ :: rest := by
          simp [store_date, hc1, hc2]
        rw [hs]
        rcases Nat.lt_trichotomy x.month_number m2 with h | h | h
        · rw [get_booked_cons_lt m2 d2 name2 ⟨x.month_number, store_day d name x.day_list_head⟩
            rest h, get_booked_cons_lt m2 d2 name2 x rest h]
          have hne : ¬(m2 = m) := by omega
          simp [hne]
        · rw [get_booked_cons_eq m2 d2 name2 ⟨x.month_number, store_day d name x.day_list_head⟩
            rest h, get_booked_cons_eq m2 d2 name2 x rest h]
          rw [show ((⟨x.month_number, store_day d name x.day_list_head⟩ :
            MonthNode).day_list_head = store_day d name x.day_list_head) from rfl]
          rw [get_in_days_store_day]
          have hm : m2 = m := by omega
          simp [hm]
        · rw [get_booked_cons_gt m2 d2 name2 ⟨x.month_number, store_day d name x.day_list_head⟩
            rest h, get_booked_cons_gt m2 d2 name2 x rest h]
          have hne : ¬(m2 = m) := by omega
          simp [hne]
      · have hs : store_date m d name (x :: rest) =
            ⟨m, store_day d name []⟩ :: x :: rest := by
          simp [store_date, hc1, hc2]
        rw [hs]
        rcases Nat.lt_trichotomy m m2 with h | h | h
        · rw [get_booked_cons_lt m2 d2 name2 ⟨m, store_day d name []⟩ (x :: rest) h]
          have hne : ¬(m2 = m) := by omega
          simp [hne]
        · rw [get_booked_cons_eq m2 d2 name2 ⟨m, store_day d name []⟩ (x :: rest) h]
          rw [show ((⟨m, store_day d name []⟩ : MonthNode).day_list_head =
            store_day d name []) from rfl]
          rw [get_in_days_store_day, get_in_days_nil]
          have hgtx : m2 < x.month_number := by omega
          rw [get_booked_cons_gt m2 d2 name2 x rest hgtx]
          have hm : m2 = m := by omega
          simp [hm]
        · rw [get_booked_cons_gt m2 d2 name2 ⟨m, store_day d name []⟩ (x :: rest) h]
          have hgtx : m2 < x.month_number := by omega
          rw [get_booked_cons_gt m2 d2 name2 x rest hgtx]
          have hne : ¬(m2 = m) := by omega
          simp [hne]

/-- Sequence of dates visited by the shared loop shape of
`store_booking_range` and `check_availability_loop`: the current date,
then — unless the end date was reached — the dates from the incremented
date on, with the same 30-day rollover; `none` when the stop condition is
not reached within `fuel` iterations. -/
def date_range (fuel : Nat) (month day end_month end_day : Nat) : Option (List (Nat × Nat)) :=
  match fuel with
  | 0 => none
  | fuel + 1 =>
    if month = end_month ∧ day = end_day then some [(month, day)]
    else if day + 1 > 30 then
      (date_range fuel (month + 1) 1 end_month end_day).map (fun l => (month, day) :: l)
    else
      (date_range fuel month (day + 1) end_month end_day).map (fun l => (month, day) :: l)

/-- Fuel is monotone for `date_range`: a loop that exits within `fuel`
iterations exits identically with any larger fuel. -/
theorem date_range_mono (fuel : Nat) : ∀ fuel2 month day end_month end_day l,
    date_range fuel month day end_month end_day = some l → fuel ≤ fuel2 →
    date_range fuel2 month day end_month end_day = some l := by
  induction fuel with
  | zero =>
    intro fuel2 m d em ed l h
    exact absurd h (by simp [date_range])
  | succ f ih =>
    intro fuel2 m d em ed l h hle
    obtain ⟨f2, rfl⟩ : ∃ f2, fuel2 = f2 + 1 := ⟨fuel2 - 1, by omega⟩
    by_cases hend : m = em ∧ d = ed
    · simp only [date_range, if_pos hend] at h ⊢
      exact h
    · by_cases hroll : d + 1 > 30
      · simp only [date_range, if_neg hend, if_pos hroll] at h ⊢
        obtain ⟨l2, hl2, rfl⟩ := Option.map_eq_some'.mp h
        rw [ih f2 (m + 1) 1 em ed l2 hl2 (by omega)]
        rfl
      · simp only [date_range, if_neg hend, if_neg hroll] at h ⊢
        obtain ⟨l2, hl2, rfl⟩ := Option.map_eq_some'.mp h
        rw [ih f2 m (d + 1) em ed l2 hl2 (by omega)]
        rfl

/-- When the loop exits, `store_booking_range` is the left fold of the
single-date store over the visited dates. -/
theorem store_range_eq_fold (fuel : Nat) : ∀ month day end_month end_day l name cal,
    date_range fuel month day end_month end_day = some l →
    store_booking_range fuel month day end_month end_day name cal =
      some (l.foldl (fun c p => store_date p.1 p.2 name c) cal) := by
  induction fuel with
  | zero =>
    intro m d em ed l name cal h
    exact absurd h (by simp [date_range])
  | succ f ih =>
    intro m d em ed l name cal h
    by_cases hend : m = em ∧ d = ed
    · simp only [date_range, if_pos hend, Option.some_inj] at h
      subst h
      simp only [store_booking_range, if_pos hend, List.foldl]
    · by_cases hroll : d + 1 > 30
      · simp only [date_range, if_neg hend, if_pos hroll] at h
        obtain ⟨l2, hl2, rfl⟩ := Option.map_eq_some'.mp h
        simp only [store_booking_range, if_neg hend, if_pos hroll]
        rw [ih (m + 1) 1 em ed l2 name _ hl2]
        simp only [List.foldl]
      · simp only [date_range, if_neg hend, if_neg hroll] at h
        obtain ⟨l2, hl2, rfl⟩ := Option.map_eq_some'.mp h
        simp only [store_booking_range, if_neg hend, if_neg hroll]
        rw [ih m (d + 1) em ed l2 name _ hl2]
        simp only [List.foldl]

/-- When the loop exits, `check_availability_loop` answers whether every
visited date has spare capacity. -/
theorem check_eq_all (fuel : Nat) : ∀ month day end_month end_day l total name cal,
    date_range fuel month day end_month end_day = some l →
    check_availability_loop fuel total name month day end_month end_day cal =
      some (l.all (fun p => decide (get_booked_quantity p.1 p.2 name cal < total))) := by
  induction fuel with
  | zero =>
    intro m d em ed l total name cal h
    exact absurd h (by simp [date_range])
  | succ f ih =>
    intro m d em ed l total name cal h
    by_cases hfull : total ≤ get_booked_quantity m d name cal
    · have hlt : ¬(get_booked_quantity m d name cal < total) := by omega
      by_cases hend : m = em ∧ d = ed
      · simp only [date_range, if_pos hend, Option.some_inj] at h
        subst h
        simp [check_availability_loop, hfull, hlt]
      · by_cases hroll : d + 1 > 30
        · simp only [date_range, if_neg hend, if_pos hroll] at h
          obtain ⟨l2, hl2, rfl⟩ := Option.map_eq_some'.mp h
          simp [check_availability_loop, hfull, hlt]
        · simp only [date_range, if_neg hend, if_neg hroll] at h
          obtain ⟨l2, hl2, rfl⟩ := Option.map_eq_some'.mp h
          simp [check_availability_loop, hfull, hlt]
    · have hlt : get_booked_quantity m d name cal < total := by omega
      by_cases hend : m = em ∧ d = ed
      · simp only [date_range, if_pos hend, Option.some_inj] at h
        subst h
        obtain ⟨he1, he2⟩ := hend
        subst he1
        subst he2
        simp [check_availability_loop, hfull, hlt]
      · by_cases hroll : d + 1 > 30
        · simp only [date_range, if_neg hend, if_pos hroll] at h
          obtain ⟨l2, hl2, rfl⟩ := Option.map_eq_some'.mp h
          simp only [check_availability_loop, if_neg (by omega : ¬(total ≤ get_booked_quantity m d name cal)), if_neg hend, if_pos hroll]
          rw [ih (m + 1) 1 em ed l2 total name cal hl2]
          simp [hlt]
        · simp only [date_range, if_neg hend, if_neg hroll] at h
          obtain ⟨l2, hl2, rfl⟩ := Option.map_eq_some'.mp h
          simp only [check_availability_loop, if_neg (by omega : ¬(total ≤ get_booked_quantity m d name cal)), if_neg hend, if_neg hroll]
          rw [ih m (d + 1) em ed l2 total name cal hl2]
          simp [hlt]

/-- A `check_availability_loop` run that answers `True` reached the end
date, so the visited-dates list is defined for the same fuel. -/
theorem check_true_date_range (fuel : Nat) : ∀ month day end_month end_day total name cal,
    check_availability_loop fuel total name month day end_month end_day cal = some true →
    ∃ l, date_range fuel month day end_month end_day = some l := by
  induction fuel with
  | zero =>
    intro m d em ed total name cal h
    exact absurd h (by simp [check_availability_loop])
  | succ f ih =>
    intro m d em ed total name cal h
    by_cases hfull : total ≤ get_booked_quantity m d name cal
    · simp [check_availability_loop, hfull] at h
    · by_cases hend : m = em ∧ d = ed
      · exact ⟨[(m, d)], by simp [date_range, hend]⟩
      · by_cases hroll : d + 1 > 30
        · simp only [check_availability_loop, if_neg hfull, if_neg hend, if_pos hroll] at h
          obtain ⟨l2, hl2⟩ := ih (m + 1) 1 em ed total name cal h
          exact ⟨(m, d) :: l2, by simp [date_range, hend, hroll, hl2]⟩
        · simp only [check_availability_loop, if_neg hfull, if_neg hend, if_neg hroll] at h
          obtain ⟨l2, hl2⟩ := ih m (d + 1) em ed total name cal h
          exact ⟨(m, d) :: l2, by simp [date_range, hend, hroll, hl2]⟩

/-- Strict chronological order on `(month, day)` pairs. -/
def dateLt (p q : Nat × Nat) : Prop := p.1 < q.1 ∨ (p.1 = q.1 ∧ p.2 < q.2)

theorem dateLt_trans {p q r : Nat × Nat} (h1 : dateLt p q) (h2 : dateLt q r) : dateLt p r := by
  rcases h1 with h1 | ⟨h1a, h1b⟩ <;> rcases h2 with h2 | ⟨h2a, h2b⟩ <;>
    simp only [dateLt] <;> omega

theorem dateLt_ne {p q : Nat × Nat} (h : dateLt p q) : p ≠ q := by
  intro hc
  subst hc
  rcases h with h | ⟨ha, hb⟩ <;> omega

/-- Every date visited after the first is chronologically after it. -/
theorem date_range_head_lt (fuel : Nat) : ∀ month day end_month end_day l,
    date_range fuel month day end_month end_day = some ((month, day) :: l) →
    ∀ p ∈ l, dateLt (month, day) p := by
  induction fuel with
  | zero =>
    intro m d em ed l h
    exact absurd h (by simp [date_range])
  | succ f ih =>
    intro m d em ed l h p hp
    by_cases hend : m = em ∧ d = ed
    · simp only [date_range, if_pos hend, Option.some_inj] at h
      have hl : l = [] := by
        injection h with h1 h2
        exact h2.symm
      subst hl
      exact absurd hp (List.not_mem_nil p)
    · by_cases hroll : d + 1 > 30
      · simp only [date_range, if_neg hend, if_pos hroll] at h
        obtain ⟨l2, hl2, heq⟩ := Option.map_eq_some'.mp h
        have hl : l = l2 := by
          injection heq with h1 h2
          exact h2.symm
        subst hl
        rcases hl2eq : l with _ | ⟨q, l3⟩
        · subst hl2eq
          exact absurd hp (List.not_mem_nil p)
        · subst hl2eq
          have hhead : q = (m + 1, 1) := by
            rcases f with _ | f2
            · exact absurd hl2 (by simp [date_range])
            · simp only [date_range] at hl2
              rcases Decidable.em (m + 1 = em ∧ 1 = ed) with hc | hc
              · rw [if_pos hc, Option.some_inj] at hl2
                injection hl2 with ha hb
                exact ha.symm
              · rw [if_neg hc] at hl2
                rcases Decidable.em ((1 : Nat) + 1 > 30) with hr | hr
                · rw [if_pos hr] at hl2
                  obtain ⟨l4, _, heq4⟩ := Option.map_eq_some'.mp hl2
                  injection heq4 with ha hb
                  exact ha.symm
                · rw [if_neg hr] at hl2
                  obtain ⟨l4, _, heq4⟩ := Option.map_eq_some'.mp hl2
                  injection heq4 with ha hb
                  exact ha.symm
          have hlt1 : dateLt (m, d) (m + 1, 1) := Or.inl (by omega)
          rcases List.mem_cons.mp hp with hpq | hpl3
          · rw [hpq, hhead]
            exact hlt1
          · have := ih (m + 1) 1 em ed l3 (hhead ▸ hl2) p hpl3
            exact dateLt_trans hlt1 this
      · simp only [date_range, if_neg hend, if_neg hroll] at h
        obtain ⟨l2, hl2, heq⟩ := Option.map_eq_some'.mp h
        have hl : l = l2 := by
          injection heq with h1 h2
          exact h2.symm
        subst hl
        rcases hl2eq : l with _ | ⟨q, l3⟩
        · subst hl2eq
          exact absurd hp (List.not_mem_nil p)
        · subst hl2eq
          have hhead : q = (m, d + 1) := by
            rcases f with _ | f2
            · exact absurd hl2 (by simp [date_range])
            · simp only [date_range] at hl2
              rcases Decidable.em (m = em ∧ d + 1 = ed) with hc | hc
              · rw [if_pos hc, Option.some_inj] at hl2
                injection hl2 with ha hb
                exact ha.symm
              · rw [if_neg hc] at hl2
                rcases Decidable.em (d + 1 + 1 > 30) with hr | hr
                · rw [if_pos hr] at hl2
                  obtain ⟨l4, _, heq4⟩ := Option.map_eq_some'.mp hl2
                  injection heq4 with ha hb
                  exact ha.symm
                · rw [if_neg hr] at hl2
                  obtain ⟨l4, _, heq4⟩ := Option.map_eq_some'.mp hl2
                  injection heq4 with ha hb
                  exact ha.symm
          have hlt1 : dateLt (m, d) (m, d + 1) := Or.inr (by omega)
          rcases List.mem_cons.mp hp with hpq | hpl3
          · rw [hpq, hhead]
            exact hlt1
          · have := ih m (d + 1) em ed l3 (hhead ▸ hl2) p hpl3
            exact dateLt_trans hlt1 this

/-- The visited-dates list is strictly chronologically sorted. -/
theorem date_range_pairwise (fuel : Nat) : ∀ month day end_month end_day l,
    date_range fuel month day end_month end_day = some l → l.Pairwise dateLt := by
  induction fuel with
  | zero =>
    intro m d em ed l h
    exact absurd h (by simp [date_range])
  | succ f ih =>
    intro m d em ed l h
    by_cases hend : m = em ∧ d = ed
    · simp only [date_range, if_pos hend, Option.some_inj] at h
      subst h
      exact List.pairwise_singleton dateLt (m, d)
    · by_cases hroll : d + 1 > 30
      · simp only [date_range, if_neg hend, if_pos hroll] at h
        obtain ⟨l2, hl2, heq⟩ := Option.map_eq_some'.mp h
        subst heq
        refine List.Pairwise.cons ?_ (ih (m + 1) 1 em ed l2 hl2)
        exact date_range_head_lt (f + 1) m d em ed l2
          (by simp only [date_range, if_neg hend, if_pos hroll, hl2, Option.map_some'])
      · simp only [date_range, if_neg hend, if_neg hroll] at h
        obtain ⟨l2, hl2, heq⟩ := Option.map_eq_some'.mp h
        subst heq
        refine List.Pairwise.cons ?_ (ih m (d + 1) em ed l2 hl2)
        exact date_range_head_lt (f + 1) m d em ed l2
          (by simp only [date_range, if_neg hend, if_neg hroll, hl2, Option.map_some'])

/-- The loop never visits the same date twice. -/
theorem date_range_nodup (fuel month day end_month end_day : Nat)
    (l : List (Nat × Nat)) (h : date_range fuel month day end_month end_day = some l) :
    l.Nodup := by
  exact (date_range_pairwise fuel month day end_month end_day l h).imp
    fun hpq => dateLt_ne hpq

/-- Booked quantity after folding the single-date store over a list of
dates: the count rises by the multiplicity of the date in the list, and
only for the stored room type. -/
theorem get_foldl_store_date (name name2 : String) (m2 d2 : Nat) :
    ∀ (l : List (Nat × Nat)) (cal : Calendar),
    get_booked_quantity m2 d2 name2 (l.foldl (fun c p => store_date p.1 p.2 name c) cal) =
      get_booked_quantity m2 d2 name2 cal +
        (if name2 = name then l.count (m2, d2) else 0) := by
  intro l
  induction l with
  | nil =>
    intro cal
    simp
  | cons p rest ih =>
    intro cal
    obtain ⟨pm, pd⟩ := p
    simp only [List.foldl_cons]
    rw [ih (store_date pm pd name cal), get_booked_store_date]
    by_cases hn : name2 = name
    · subst hn
      by_cases hp : (m2, d2) = (pm, pd)
      · injection hp with h1 h2
        subst h1
        subst h2
        rw [List.count_cons_self]
        simp
        omega
      · have hne : ¬(m2 = pm ∧ d2 = pd ∧ (name2 : String) = name2) := by
          intro hc
          exact hp (by rw [hc.1, hc.2.1])
        rw [if_neg hne]
        rw [List.count_cons_of_ne hp]
        simp
    · simp only [if_neg hn]
      have hm : ¬(m2 = pm ∧ d2 = pd ∧ name2 = name) := fun hc => hn hc.2.2
      rw [if_neg hm]

/-- A duplicate-free list contains each element at most once. -/
theorem count_le_one_of_nodup {α : Type} [BEq α] [LawfulBEq α] (l : List α) (h : l.Nodup)
    (a : α) : l.count a ≤ 1 := by
  induction l with
  | nil => simp
  | cons b l ih =>
    rw [List.count_cons]
    rcases List.nodup_cons.mp h with ⟨hb, hl⟩
    by_cases hab : (b == a) = true
    · have hab2 : b = a := eq_of_beq hab
      subst hab2
      rw [List.count_eq_zero.mpr hb]
      simp
    · have := ih hl
      simp only [hab, if_false, Bool.false_eq_true]
      omega

/-- Capacity invariant of the ledger with respect to a room catalog: no
date/type entry exceeds the type's unit count. -/
def capacity_inv (rooms : List Room) (cal : Calendar) : Prop :=
  ∀ m d name, get_booked_quantity m d name cal ≤ total_quantity rooms name

/-- A failed `make_reservation` returns the state unchanged. -/
theorem make_reservation_fail_eq (fuel : Nat) (rooms : List Room) (customer room_type : String)
    (check_in check_out : Nat × Nat) (st st2 : SysState)
    (h : make_reservation fuel rooms customer room_type check_in check_out st =
      some (none, st2)) : st2 = st := by
  unfold make_reservation at h
  rcases hchk : check_availability fuel rooms room_type check_in check_out st.calendar_head with
    _ | b
  · rw [hchk] at h
    exact absurd h (by simp)
  · rcases b with _ | _
    · rw [hchk] at h
      simp only [Option.some_inj, Prod.mk.injEq] at h
      exact h.2.symm
    · rw [hchk] at h
      rcases hst : store_booking_range fuel check_in.1 check_in.2 check_out.1 check_out.2
          room_type st.calendar_head with _ | cal2
      · rw [hst] at h
        exact absurd h (by simp)
      · rw [hst] at h
        simp only [Option.some_inj, Prod.mk.injEq] at h
        exact absurd h.1 (by simp)

/-- A successful `make_reservation` passed the availability check and
stored exactly its range; the ID is the formatted counter and the counter
advances by one. -/
theorem make_reservation_succ (fuel : Nat) (rooms : List Room) (customer room_type : String)
    (check_in check_out : Nat × Nat) (st st2 : SysState) (rid : String)
    (h : make_reservation fuel rooms customer room_type check_in check_out st =
      some (some rid, st2)) :
    check_availability fuel rooms room_type check_in check_out st.calendar_head = some true ∧
    rid = idString st.counter ∧
    st2.counter = st.counter + 1 ∧
    st2.reservations_db =
      (rid, ⟨customer, room_type, check_in, check_out⟩) :: st.reservations_db ∧
    store_booking_range fuel check_in.1 check_in.2 check_out.1 check_out.2 room_type
      st.calendar_head = some st2.calendar_head := by
  unfold make_reservation at h
  rcases hchk : check_availability fuel rooms room_type check_in check_out st.calendar_head with
    _ | b
  · rw [hchk] at h
    exact absurd h (by simp)
  · rcases b with _ | _
    · rw [hchk] at h
      simp only [Option.some_inj, Prod.mk.injEq] at h
      exact absurd h.1 (by simp)
    · rw [hchk] at h
      rcases hst : store_booking_range fuel check_in.1 check_in.2 check_out.1 check_out.2
          room_type st.calendar_head with _ | cal2
      · rw [hst] at h
        exact absurd h (by simp)
      · rw [hst] at h
        simp only [Option.some_inj, Prod.mk.injEq] at h
        obtain ⟨hrid, hst2⟩ := h
        subst hst2
        refine ⟨rfl, ?_, rfl, ?_, ?_⟩
        · exact hrid.symm
        · rw [hrid]
        · rfl

/-- `make_reservation` preserves the capacity invariant: on failure the
state is unchanged, and on success every stored date was strictly below
capacity when checked and rises by exactly one. -/
theorem make_reservation_preserves_inv (fuel : Nat) (rooms : List Room)
    (customer room_type : String) (check_in check_out : Nat × Nat) (st st2 : SysState)
    (r : Option String)
    (h : make_reservation fuel rooms customer room_type check_in check_out st = some (r, st2))
    (hinv : capacity_inv rooms st.calendar_head) : capacity_inv rooms st2.calendar_head := by
  rcases r with _ | rid
  · rw [make_reservation_fail_eq fuel rooms customer room_type check_in check_out st st2 h]
    exact hinv
  · obtain ⟨hchk, _, _, _, hstore⟩ :=
      make_reservation_succ fuel rooms customer room_type check_in check_out st st2 rid h
    unfold check_availability at hchk
    obtain ⟨l, hl⟩ := check_true_date_range fuel check_in.1 check_in.2 check_out.1 check_out.2
      (total_quantity rooms room_type) room_type st.calendar_head hchk
    have hall := check_eq_all fuel check_in.1 check_in.2 check_out.1 check_out.2 l
      (total_quantity rooms room_type) room_type st.calendar_head hl
    rw [hchk] at hall
    have hallt : ∀ p ∈ l,
        get_booked_quantity p.1 p.2 room_type st.calendar_head < total_quantity rooms room_type := by
      intro p hp
      have := (List.all_eq_true.mp (Option.some_inj.mp hall).symm) p hp
      exact of_decide_eq_true this
    have hfold := store_range_eq_fold fuel check_in.1 check_in.2 check_out.1 check_out.2 l
      room_type st.calendar_head hl
    rw [hstore] at hfold
    have hcal : st2.calendar_head =
        l.foldl (fun c p => store_date p.1 p.2 room_type c) st.calendar_head :=
      Option.some_inj.mp hfold
    intro m d name
    rw [hcal, get_foldl_store_date]
    by_cases hn : name = room_type
    · rw [if_pos hn]
      by_cases hmem : (m, d) ∈ l
      · have hlt := hallt (m, d) hmem
        have hnodup := date_range_nodup fuel check_in.1 check_in.2 check_out.1 check_out.2 l hl
        have hcount : l.count (m, d) ≤ 1 := count_le_one_of_nodup l hnodup (m, d)
        subst hn
        have hlt2 : get_booked_quantity m d name st.calendar_head <
            total_quantity rooms name := hlt
        omega
      · rw [List.count_eq_zero.mpr hmem]
        subst hn
        have := hinv m d name
        omega
    · rw [if_neg hn]
      have := hinv m d name
      omega

/-- The controller's cancel leaves the underlying system state (ledger,
registry, counter) exactly as it was. -/
theorem cancel_reservation_sys (st : CtrlState) (rid : String) :
    (cancel_reservation st rid).1.sys = st.sys := by
  by_cases h : (List.filter (fun r => r.reservation_id != rid) st.reservations).length <
      st.reservations.length
  · simp [cancel_reservation, h]
  · simp [cancel_reservation, h]

/-- A failed controller `make_reservation` returns the state unchanged. -/
theorem ctrl_make_fail (fuel : Nat) (rooms : List Room) (customer room_type : String)
    (check_in check_out : Nat × Nat) (st st2 : CtrlState)
    (h : ctrl_make_reservation fuel rooms customer room_type check_in check_out st =
      some (none, st2)) : st2 = st := by
  unfold ctrl_make_reservation at h
  by_cases hc : (customer == "") = true
  · rw [if_pos hc] at h
    simp only [Option.some_inj, Prod.mk.injEq] at h
    exact h.2.symm
  · rw [if_neg hc] at h
    rcases hm : make_reservation fuel rooms customer room_type check_in check_out st.sys with
      _ | ⟨r, sys2⟩
    · rw [hm] at h
      exact absurd h (by simp)
    · rcases r with _ | rid
      · rw [hm] at h
        simp only [Option.some_inj, Prod.mk.injEq] at h
        have hs := make_reservation_fail_eq fuel rooms customer room_type check_in check_out
          st.sys sys2 hm
        rw [← h.2, hs]
      · rw [hm] at h
        simp only [Option.some_inj, Prod.mk.injEq] at h
        exact absurd h.1 (by simp)

/-- A successful controller `make_reservation` is a successful system
`make_reservation` plus an append to the in-memory list. -/
theorem ctrl_make_succ (fuel : Nat) (rooms : List Room) (customer room_type : String)
    (check_in check_out : Nat × Nat) (st st2 : CtrlState) (rid : String)
    (h : ctrl_make_reservation fuel rooms customer room_type check_in check_out st =
      some (some rid, st2)) :
    make_reservation fuel rooms customer room_type check_in check_out st.sys =
      some (some rid, st2.sys) ∧
    st2.reservations = st.reservations ++
      [⟨rid, customer, room_type, fmt_date check_in, fmt_date check_out⟩] := by
  unfold ctrl_make_reservation at h
  by_cases hc : (customer == "") = true
  · rw [if_pos hc] at h
    simp only [Option.some_inj, Prod.mk.injEq] at h
    exact absurd h.1 (by simp)
  · rw [if_neg hc] at h
    rcases hm : make_reservation fuel rooms customer room_type check_in check_out st.sys with
      _ | ⟨r, sys2⟩
    · rw [hm] at h
      exact absurd h (by simp)
    · rcases r with _ | rid0
      · rw [hm] at h
        simp only [Option.some_inj, Prod.mk.injEq] at h
        exact absurd h.1 (by simp)
      · rw [hm] at h
        simp only [Option.some_inj, Prod.mk.injEq] at h
        obtain ⟨hr, hst⟩ := h
        subst hr
        rw [← hst]
        exact ⟨rfl, rfl⟩

/-- One operation preserves the capacity invariant. -/
theorem apply_op_preserves_inv (rooms : List Room) (st : CtrlState) (op : Op)
    (hinv : capacity_inv rooms st.sys.calendar_head) :
    capacity_inv rooms (apply_op rooms st op).sys.calendar_head := by
  rcases op with ⟨fuel, c, rt, ci, co⟩ | rid
  · simp only [apply_op]
    rcases hc : ctrl_make_reservation fuel rooms c rt ci co st with _ | ⟨r, st2⟩
    · exact hinv
    · rcases r with _ | rid
      · rw [ctrl_make_fail fuel rooms c rt ci co st st2 hc]
        exact hinv
      · obtain ⟨hm, _⟩ := ctrl_make_succ fuel rooms c rt ci co st st2 rid hc
        exact make_reservation_preserves_inv fuel rooms c rt ci co st.sys st2.sys
          (some rid) hm hinv
  · simp only [apply_op]
    rw [cancel_reservation_sys]
    exact hinv

/-- Any operation sequence preserves the capacity invariant. -/
theorem foldl_preserves_inv (rooms : List Room) : ∀ (ops : List Op) (st : CtrlState),
    capacity_inv rooms st.sys.calendar_head →
    capacity_inv rooms (ops.foldl (apply_op rooms) st).sys.calendar_head := by
  intro ops
  induction ops with
  | nil => intro st h; exact h
  | cons op rest ih =>
    intro st h
    exact ih (apply_op rooms st op) (apply_op_preserves_inv rooms st op h)

/-- The empty ledger satisfies the capacity invariant. -/
theorem capacity_inv_init (rooms : List Room) : capacity_inv rooms init_state.sys.calendar_head := by
  intro m d name
  simp [init_state, get_booked_quantity, find_month]

/-- C1 — Capacity invariant: starting from the empty ledger, after any
sequence of `create`/`cancel` operations the booked count of every date
and room type stays at or below the type's unit count in the catalog; and
the ledger is only ever changed by a `make_reservation` whose
`check_availability` pass over the same range returned `True`. -/
theorem capacity_invariant_after_any_run :
    (∀ (rooms : List Room) (ops : List Op) (m d : Nat) (name : String),
      get_booked_quantity m d name (run rooms ops).sys.calendar_head ≤
        total_quantity rooms name) ∧
    (∀ (fuel : Nat) (rooms : List Room) (customer room_type : String)
      (check_in check_out : Nat × Nat) (st : SysState) (r : Option String) (st2 : SysState),
      make_reservation fuel rooms customer room_type check_in check_out st = some (r, st2) →
      st2.calendar_head ≠ st.calendar_head →
      check_availability fuel rooms room_type check_in check_out st.calendar_head = some true) := by
  constructor
  · intro rooms ops m d name
    exact foldl_preserves_inv rooms ops init_state (capacity_inv_init rooms) m d name
  · intro fuel rooms customer room_type check_in check_out st r st2 h hne
    rcases r with _ | rid
    · exact absurd
        (congrArg SysState.calendar_head
          (make_reservation_fail_eq fuel rooms customer room_type check_in check_out st st2 h))
        hne
    · exact (make_reservation_succ fuel rooms customer room_type check_in check_out
        st st2 rid h).1

/-- Witness for the capacity invariant at the default hotel after a
concrete create and cancel, and for the gating clause at a one-room
catalog. -/
theorem capacity_invariant_after_any_run_witness :
    get_booked_quantity 3 10 "Single Room"
        (run hotel_rooms [Op.create 4 "a" "Single Room" (3, 10) (3, 12),
          Op.cancel "R0001"]).sys.calendar_head ≤
      total_quantity hotel_rooms "Single Room" ∧
    check_availability 1 [⟨1, "A", 1, 2, 50, true⟩] "A" (1, 1) (1, 1) [] = some true := by
  constructor
  · exact capacity_invariant_after_any_run.1 hotel_rooms
      [Op.create 4 "a" "Single Room" (3, 10) (3, 12), Op.cancel "R0001"] 3 10 "Single Room"
  · exact capacity_invariant_after_any_run.2 1 [⟨1, "A", 1, 2, 50, true⟩] "c" "A" (1, 1) (1, 1)
      ⟨[], [], 1⟩ (some "R0001")
      ⟨[⟨1, [⟨1, [("A", 1)]⟩]⟩], [("R0001", ⟨"c", "A", (1, 1), (1, 1)⟩)], 2⟩
      (by decide) (by decide)

/-- C3 — No partial application: whenever some visited date of the
proposed range fails the availability comparison, `make_reservation`
returns the distinguishable failure `None` and leaves every component of
the state — ledger, reservations database, ID counter — exactly as it
was. -/
theorem no_partial_application (fuel : Nat) (rooms : List Room) (customer room_type : String)
    (check_in check_out : Nat × Nat) (st : SysState) (l : List (Nat × Nat)) (p : Nat × Nat)
    (hl : date_range fuel check_in.1 check_in.2 check_out.1 check_out.2 = some l)
    (hp : p ∈ l)
    (hfull : total_quantity rooms room_type ≤
      get_booked_quantity p.1 p.2 room_type st.calendar_head) :
    make_reservation fuel rooms customer room_type check_in check_out st = some (none, st) := by
  have hchk := check_eq_all fuel check_in.1 check_in.2 check_out.1 check_out.2 l
    (total_quantity rooms room_type) room_type st.calendar_head hl
  have hallf : (l.all (fun q => decide (get_booked_quantity q.1 q.2 room_type st.calendar_head <
      total_quantity rooms room_type))) = false := by
    rw [Bool.eq_false_iff]
    intro hc
    have := List.all_eq_true.mp hc p hp
    have := of_decide_eq_true this
    omega
  rw [hallf] at hchk
  simp only [make_reservation, check_availability, hchk]

/-- Witness for no-partial-application: a one-unit room type already
booked on the requested single date. -/
theorem no_partial_application_witness :
    make_reservation 1 [⟨1, "A", 1, 2, 50, true⟩] "c" "A" (1, 1) (1, 1)
      ⟨[⟨1, [⟨1, [("A", 1)]⟩]⟩], [], 7⟩ = some (none, ⟨[⟨1, [⟨1, [("A", 1)]⟩]⟩], [], 7⟩) :=
  no_partial_application 1 [⟨1, "A", 1, 2, 50, true⟩] "c" "A" (1, 1) (1, 1)
    ⟨[⟨1, [⟨1, [("A", 1)]⟩]⟩], [], 7⟩ [(1, 1)] (1, 1) (by decide) (by decide) (by decide)

/-- Removing the filtered reservation shortens the list exactly when the
ID occurs in it. -/
theorem length_filter_ne_lt_iff (rid : String) (l : List CtrlReservation) :
    (l.filter (fun r => r.reservation_id != rid)).length < l.length ↔
      rid ∈ l.map (fun r => r.reservation_id) := by
  induction l with
  | nil => simp
  | cons r rest ih =>
    by_cases h : r.reservation_id = rid
    · have hb : (r.reservation_id != rid) = false := by simp [h]
      simp only [List.filter_cons, hb, Bool.false_eq_true, if_false, List.map_cons,
        List.mem_cons, List.length_cons]
      have hle := List.length_filter_le (fun r => r.reservation_id != rid) rest
      constructor
      · intro _
        exact Or.inl h.symm
      · intro _
        omega
    · have hb : (r.reservation_id != rid) = true := by simp [h]
      simp only [List.filter_cons, hb, if_true, List.map_cons, List.mem_cons,
        List.length_cons]
      rw [Nat.succ_lt_succ_iff]
      constructor
      · intro hlt
        exact Or.inr (ih.mp hlt)
      · intro hmem
        rcases hmem with hm | hm
        · exact absurd hm.symm h
        · exact ih.mpr hm

/-- C10 — The controller's `cancel_reservation` never touches the
occupancy ledger (the underlying `ReservationSystem` defines no
`cancel_reservation`, so the `hasattr`-guarded call is skipped): every
booked count is unchanged, yet the call reports success exactly when the
ID occurs in the controller's in-memory reservation list. -/
theorem controller_cancel_frame (st : CtrlState) (rid : String) :
    (cancel_reservation st rid).1.sys = st.sys ∧
    (∀ m d name, get_booked_quantity m d name (cancel_reservation st rid).1.sys.calendar_head =
      get_booked_quantity m d name st.sys.calendar_head) ∧
    ((cancel_reservation st rid).2 = true ↔
      rid ∈ st.reservations.map (fun r => r.reservation_id)) := by
  refine ⟨cancel_reservation_sys st rid, ?_, ?_⟩
  · intro m d name
    rw [cancel_reservation_sys st rid]
  · rw [← length_filter_ne_lt_iff rid st.reservations]
    by_cases h : (List.filter (fun r => r.reservation_id != rid) st.reservations).length <
        st.reservations.length
    · simp [cancel_reservation, h]
    · simp [cancel_reservation, h]

/-- Witness: cancelling an ID present in the controller list succeeds
while the system state is untouched. -/
theorem controller_cancel_frame_witness :
    (cancel_reservation ⟨⟨[⟨3, [⟨10, [("Single Room", 1)]⟩]⟩], [], 2⟩,
        [⟨"R0001", "a", "Single Room", "03-10", "03-12"⟩]⟩ "R0001").2 = true ∧
    (cancel_reservation ⟨⟨[⟨3, [⟨10, [("Single Room", 1)]⟩]⟩], [], 2⟩,
        [⟨"R0001", "a", "Single Room", "03-10", "03-12"⟩]⟩ "R0001").1.sys =
      ⟨[⟨3, [⟨10, [("Single Room", 1)]⟩]⟩], [], 2⟩ := by
  constructor
  · exact (controller_cancel_frame ⟨⟨[⟨3, [⟨10, [("Single Room", 1)]⟩]⟩], [], 2⟩,
      [⟨"R0001", "a", "Single Room", "03-10", "03-12"⟩]⟩ "R0001").2.2.mpr (by decide)
  · exact (controller_cancel_frame ⟨⟨[⟨3, [⟨10, [("Single Room", 1)]⟩]⟩], [], 2⟩,
      [⟨"R0001", "a", "Single Room", "03-10", "03-12"⟩]⟩ "R0001").1

/-- All `(month, day, room_type)` triples present in the ledger. -/
def ledger_entries (cal : Calendar) : List (Nat × Nat × String) :=
  cal.flatMap (fun mn => mn.day_list_head.flatMap (fun dn =>
    dn.bookings.map (fun b => (mn.month_number, dn.day_number, b.1))))

/-- A found month node is an element of the calendar with the searched
month number. -/
theorem find_month_mem (month : Nat) (cal : Calendar) (mn : MonthNode)
    (h : find_month month cal = some mn) : mn ∈ cal ∧ mn.month_number = month := by
  induction cal with
  | nil => exact absurd h (by simp [find_month])
  | cons x rest ih =>
    by_cases h1 : x.month_number < month
    · simp only [find_month, if_pos h1] at h
      obtain ⟨hm, he⟩ := ih h
      exact ⟨List.mem_cons_of_mem x hm, he⟩
    · by_cases h2 : x.month_number = month
      · simp only [find_month, if_neg h1, if_pos h2, Option.some_inj] at h
        subst h
        exact ⟨List.mem_cons_self x rest, h2⟩
      · simp only [find_month, if_neg h1, if_neg h2] at h
        exact absurd h (by simp)

/-- A found day node is an element of the day list with the searched day
number. -/
theorem find_day_mem (day : Nat) (l : List DayNode) (dn : DayNode)
    (h : find_day day l = some dn) : dn ∈ l ∧ dn.day_number = day := by
  induction l with
  | nil => exact absurd h (by simp [find_day])
  | cons x rest ih =>
    by_cases h1 : x.day_number < day
    · simp only [find_day, if_pos h1] at h
      obtain ⟨hm, he⟩ := ih h
      exact ⟨List.mem_cons_of_mem x hm, he⟩
    · by_cases h2 : x.day_number = day
      · simp only [find_day, if_neg h1, if_pos h2, Option.some_inj] at h
        subst h
        exact ⟨List.mem_cons_self x rest, h2⟩
      · simp only [find_day, if_neg h1, if_neg h2] at h
        exact absurd h (by simp)

/-- C8 — Point lookup default: for any date and room type with no ledger
entry, `get_booked_quantity` returns 0 (and, being a total function, it
succeeds on every input). -/
theorem point_lookup_default (m d : Nat) (name : String) (cal : Calendar)
    (h : (m, d, name) ∉ ledger_entries cal) : get_booked_quantity m d name cal = 0 := by
  unfold get_booked_quantity
  rcases hm : find_month m cal with _ | mn
  · rfl
  · show get_in_days d name mn.day_list_head = 0
    unfold get_in_days
    rcases hd : find_day d mn.day_list_head with _ | dn
    · rfl
    · show lookup_booking name dn.bookings = 0
      apply lookup_booking_eq_zero
      intro p hp hpn
      apply h
      obtain ⟨hmnmem, hmn⟩ := find_month_mem m cal mn hm
      obtain ⟨hdnmem, hdn⟩ := find_day_mem d mn.day_list_head dn hd
      unfold ledger_entries
      refine List.mem_flatMap.mpr ⟨mn, hmnmem, ?_⟩
      refine List.mem_flatMap.mpr ⟨dn, hdnmem, ?_⟩
      refine List.mem_map.mpr ⟨p, hp, ?_⟩
      rw [hmn, hdn, hpn]

/-- Witness: a date/type absent from a non-empty ledger reads as 0. -/
theorem point_lookup_default_witness :
    get_booked_quantity 5 5 "Single Room" [⟨1, [⟨1, [("A", 1)]⟩]⟩] = 0 :=
  point_lookup_default 5 5 "Single Room" [⟨1, [⟨1, [("A", 1)]⟩]⟩] (by decide)

/-- C2 (code bug) — A successful create followed by a cancel of that very
reservation reports success but leaves the range's booked counts
incremented: the count for (3, 10) was 0 before the create and is still 1
after the cancel, because no decrement path exists in the running code
(`ReservationSystem` has no `cancel_reservation`; the only variant that
has one calls the undefined `remove_booking_range`). -/
theorem create_then_cancel_ledger_bug :
    ctrl_make_reservation 3 hotel_rooms "alice" "Single Room" (3, 10) (3, 12) init_state =
      some (some "R0001",
        ⟨⟨[⟨3, [⟨10, [("Single Room", 1)]⟩, ⟨11, [("Single Room", 1)]⟩,
            ⟨12, [("Single Room", 1)]⟩]⟩],
          [("R0001", ⟨"alice", "Single Room", (3, 10), (3, 12)⟩)], 2⟩,
          [⟨"R0001", "alice", "Single Room", "03-10", "03-12"⟩]⟩) ∧
    get_booked_quantity 3 10 "Single Room" init_state.sys.calendar_head = 0 ∧
    (cancel_reservation
      ⟨⟨[⟨3, [⟨10, [("Single Room", 1)]⟩, ⟨11, [("Single Room", 1)]⟩,
          ⟨12, [("Single Room", 1)]⟩]⟩],
        [("R0001", ⟨"alice", "Single Room", (3, 10), (3, 12)⟩)], 2⟩,
        [⟨"R0001", "alice", "Single Room", "03-10", "03-12"⟩]⟩ "R0001").2 = true ∧
    get_booked_quantity 3 10 "Single Room"
      (cancel_reservation
        ⟨⟨[⟨3, [⟨10, [("Single Room", 1)]⟩, ⟨11, [("Single Room", 1)]⟩,
            ⟨12, [("Single Room", 1)]⟩]⟩],
          [("R0001", ⟨"alice", "Single Room", (3, 10), (3, 12)⟩)], 2⟩,
          [⟨"R0001", "alice", "Single Room", "03-10", "03-12"⟩]⟩
        "R0001").1.sys.calendar_head = 1 := by
  refine ⟨?_, ?_, ?_, ?_⟩ <;> decide

/-- With zero units for the type, the availability loop returns `False`
already on the first date. -/
theorem check_availability_zero_units (rooms : List Room) (name : String) (f : Nat)
    (check_in check_out : Nat × Nat) (cal : Calendar)
    (htot : total_quantity rooms name = 0) :
    check_availability (f + 1) rooms name check_in check_out cal = some false := by
  unfold check_availability
  rw [htot]
  simp [check_availability_loop]

/-- C4 counterexample — the claim that an unknown room type surfaces an
`UnknownRoomType` error is false on the code: the name "Penthouse" is not
in the catalog, yet the unit count silently computes to 0, the
availability check merely returns `False`, and `make_reservation` merely
returns the ordinary no-availability failure `None`. -/
theorem unknown_room_type_counterexample :
    total_quantity hotel_rooms "Penthouse" = 0 ∧
    check_availability 1 hotel_rooms "Penthouse" (1, 1) (1, 5) [] = some false ∧
    make_reservation 1 hotel_rooms "alice" "Penthouse" (1, 1) (1, 5) ⟨[], [], 1⟩ =
      some (none, ⟨[], [], 1⟩) := by
  refine ⟨?_, ?_, ?_⟩ <;> decide

/-- C4 amended — a room type name not present in the catalog is silently
defaulted to zero units: the unit count computes to 0, the availability
check returns `False` for every range (failing already at the first
date), and `make_reservation` returns the ordinary failure `None` with
the state unchanged; no distinct error is raised. -/
theorem unknown_room_type_amended (rooms : List Room) (name : String)
    (h : name ∉ rooms.map (fun r => r.room_type)) :
    total_quantity rooms name = 0 ∧
    (∀ (fuel : Nat) (check_in check_out : Nat × Nat) (cal : Calendar), 1 ≤ fuel →
      check_availability fuel rooms name check_in check_out cal = some false) ∧
    (∀ (fuel : Nat) (customer : String) (check_in check_out : Nat × Nat) (st : SysState),
      1 ≤ fuel →
      make_reservation fuel rooms customer name check_in check_out st = some (none, st)) := by
  have htot : total_quantity rooms name = 0 := by
    unfold total_quantity
    rw [List.countP_eq_zero]
    intro r hr hc
    exact h (List.mem_map.mpr ⟨r, hr, eq_of_beq hc⟩)
  refine ⟨htot, ?_, ?_⟩
  · intro fuel ci co cal hf
    obtain ⟨f, rfl⟩ : ∃ f, fuel = f + 1 := ⟨fuel - 1, by omega⟩
    exact check_availability_zero_units rooms name f ci co cal htot
  · intro fuel customer ci co st hf
    obtain ⟨f, rfl⟩ : ∃ f, fuel = f + 1 := ⟨fuel - 1, by omega⟩
    have hchk := check_availability_zero_units rooms name f ci co st.calendar_head htot
    unfold check_availability at hchk
    simp only [make_reservation, check_availability, hchk]

/-- Witness for the amended C4 at the default hotel and an absent name. -/
theorem unknown_room_type_amended_witness :
    total_quantity hotel_rooms "Penthouse" = 0 ∧
    check_availability 2 hotel_rooms "Penthouse" (2, 3) (2, 4) [] = some false := by
  have h := unknown_room_type_amended hotel_rooms "Penthouse" (by decide)
  exact ⟨h.1, h.2.1 2 (2, 3) (2, 4) [] (by decide)⟩

/-- Value of a decimal digit character. -/
def dval (c : Char) : Nat := c.toNat - 48

/-- Numeric value of a big-endian decimal digit string; leading zeros are
harmless. -/
def decode (l : List Char) : Nat := l.foldl (fun a c => 10 * a + dval c) 0

/-- Numeric part of a reservation ID: the decimal value of everything
after the leading `R`. -/
def idNum (s : String) : Nat := decode (s.toList.drop 1)

theorem dval_digitChar (d : Nat) (h : d < 10) : dval (Nat.digitChar d) = d := by
  interval_cases d <;> rfl

/-- The digit accumulator of `Nat.toDigitsCore` is an append. -/
theorem toDigitsCore_append (fuel : Nat) : ∀ (n : Nat) (ds : List Char),
    Nat.toDigitsCore 10 fuel n ds = Nat.toDigitsCore 10 fuel n [] ++ ds := by
  induction fuel with
  | zero =>
    intro n ds
    rfl
  | succ f ih =>
    intro n ds
    simp only [Nat.toDigitsCore]
    by_cases h : n / 10 = 0
    · simp [h]
    · rw [if_neg h, if_neg h, ih (n / 10) [Nat.digitChar (n % 10)],
        ih (n / 10) (Nat.digitChar (n % 10) :: ds)]
      simp

theorem decode_append_singleton (l : List Char) (c : Char) :
    decode (l ++ [c]) = 10 * decode l + dval c := by
  unfold decode
  rw [List.foldl_append]
  rfl

/-- `decode` is a left inverse of the core decimal rendering. -/
theorem decode_toDigitsCore (fuel : Nat) : ∀ n, n < 10 ^ fuel →
    decode (Nat.toDigitsCore 10 fuel n []) = n := by
  induction fuel with
  | zero =>
    intro n h
    interval_cases n
    rfl
  | succ f ih =>
    intro n h
    simp only [Nat.toDigitsCore]
    by_cases hz : n / 10 = 0
    · rw [if_pos hz]
      have hn : n < 10 := by omega
      have hmod : n % 10 = n := Nat.mod_eq_of_lt hn
      show decode [Nat.digitChar (n % 10)] = n
      unfold decode
      simp only [List.foldl_cons, List.foldl_nil]
      rw [dval_digitChar (n % 10) (Nat.mod_lt n (by norm_num))]
      omega
    · rw [if_neg hz]
      rw [toDigitsCore_append f (n / 10) [Nat.digitChar (n % 10)]]
      rw [decode_append_singleton]
      have hlt : n / 10 < 10 ^ f := by
        rw [Nat.div_lt_iff_lt_mul (by norm_num)]
        calc n < 10 ^ (f + 1) := h
          _ = 10 ^ f * 10 := by ring
      rw [ih (n / 10) hlt, dval_digitChar (n % 10) (Nat.mod_lt n (by norm_num))]
      omega

theorem decode_toDigits (n : Nat) : decode (Nat.toDigits 10 n) = n := by
  unfold Nat.toDigits
  apply decode_toDigitsCore
  calc n < 10 ^ n := Nat.lt_pow_self (by norm_num) n
    _ ≤ 10 ^ (n + 1) := Nat.pow_le_pow_right (by norm_num) (Nat.le_succ n)

/-- Leading zero padding does not change the decoded value. -/
theorem decode_replicate_zero (k : Nat) (l : List Char) :
    decode (List.replicate k '0' ++ l) = decode l := by
  induction k with
  | zero => rfl
  | succ k2 ih =>
    have hstep : decode (List.replicate (k2 + 1) '0' ++ l) =
        decode (List.replicate k2 '0' ++ l) := rfl
    rw [hstep, ih]

/-- The numeric part of the ID issued for counter `n` is `n` itself. -/
theorem idNum_idString (n : Nat) : idNum (idString n) = n := by
  have h1 : (idString n).toList =
      'R' :: (List.replicate (4 - (Nat.toDigits 10 n).length) '0' ++ Nat.toDigits 10 n) := rfl
  unfold idNum
  rw [h1]
  show decode (List.replicate (4 - (Nat.toDigits 10 n).length) '0' ++ Nat.toDigits 10 n) = n
  rw [decode_replicate_zero, decode_toDigits]

/-- Invariant tying the issued-ID log to the counter: the counter is one
past the number of issued IDs, and the log is exactly
`idString 1, …, idString k` in order. -/
def ids_ok (p : CtrlState × List String) : Prop :=
  p.1.sys.counter = p.2.length + 1 ∧
  p.2 = (List.range p.2.length).map (fun i => idString (1 + i))

theorem apply_op_log_ok (rooms : List Room) (p : CtrlState × List String) (op : Op)
    (h : ids_ok p) : ids_ok (apply_op_log rooms p op) := by
  rcases op with ⟨fuel, c, rt, ci, co⟩ | rid
  · simp only [apply_op_log]
    rcases hc : ctrl_make_reservation fuel rooms c rt ci co p.1 with _ | ⟨r, st2⟩
    · exact h
    · rcases r with _ | rid0
      · have hst : st2 = p.1 := ctrl_make_fail fuel rooms c rt ci co p.1 st2 hc
        exact ⟨by rw [hst]; exact h.1, h.2⟩
      · obtain ⟨hm, _⟩ := ctrl_make_succ fuel rooms c rt ci co p.1 st2 rid0 hc
        obtain ⟨_, hrid, hcnt, _, _⟩ :=
          make_reservation_succ fuel rooms c rt ci co p.1.sys st2.sys rid0 hm
        constructor
        · show st2.sys.counter = (p.2 ++ [rid0]).length + 1
          rw [List.length_append, List.length_singleton, hcnt, h.1]
        · show p.2 ++ [rid0] =
            (List.range (p.2 ++ [rid0]).length).map (fun i => idString (1 + i))
          rw [List.length_append, List.length_singleton, List.range_succ, List.map_append]
          congr 1
          · exact h.2
          · show [rid0] = [idString (1 + p.2.length)]
            rw [hrid, h.1, Nat.add_comm p.2.length 1]
  · simp only [apply_op_log]
    exact ⟨by rw [cancel_reservation_sys]; exact h.1, h.2⟩

/-- The log invariant holds after any operation sequence. -/
theorem run_log_ok (rooms : List Room) (ops : List Op) : ids_ok (run_log rooms ops) := by
  have hgen : ∀ (l : List Op) (p : CtrlState × List String), ids_ok p →
      ids_ok (l.foldl (apply_op_log rooms) p) := by
    intro l
    induction l with
    | nil => intro p h; exact h
    | cons op rest ih =>
      intro p h
      exact ih (apply_op_log rooms p op) (apply_op_log_ok rooms p op h)
  exact hgen ops (init_state, []) ⟨rfl, rfl⟩

/-- The counter never decreases under any operation — in particular a
cancel never rewinds it. -/
theorem apply_op_counter_mono (rooms : List Room) (st : CtrlState) (op : Op) :
    st.sys.counter ≤ (apply_op rooms st op).sys.counter := by
  rcases op with ⟨fuel, c, rt, ci, co⟩ | rid
  · simp only [apply_op]
    rcases hc : ctrl_make_reservation fuel rooms c rt ci co st with _ | ⟨r, st2⟩
    · exact Nat.le_refl _
    · rcases r with _ | rid0
      · rw [ctrl_make_fail fuel rooms c rt ci co st st2 hc]
      · obtain ⟨hm, _⟩ := ctrl_make_succ fuel rooms c rt ci co st st2 rid0 hc
        obtain ⟨_, _, hcnt, _, _⟩ :=
          make_reservation_succ fuel rooms c rt ci co st.sys st2.sys rid0 hm
        show st.sys.counter ≤ st2.sys.counter
        omega
  · simp only [apply_op]
    rw [cancel_reservation_sys]

/-- C5 — Reservation ID format and monotonicity: the ID for counter `n`
is `R` followed by `n` zero-padded to 4 digits, growing without
re-padding past 4 digits; the numeric part of the ID equals the counter,
so IDs are strictly increasing under numeric order; after any operation
sequence from the fresh engine the issued IDs are exactly
`idString 1, …, idString k` in order (the n-th successful generation
returns `idString n`), pairwise distinct; and no operation — in
particular no cancel — ever rewinds the counter. -/
theorem reservation_id_format_and_monotonicity :
    (idString 1 = "R0001" ∧ idString 2 = "R0002" ∧ idString 9999 = "R9999" ∧
      idString 10000 = "R10000") ∧
    (∀ n, idNum (idString n) = n) ∧
    (∀ a b, a < b → idNum (idString a) < idNum (idString b)) ∧
    (∀ (rooms : List Room) (ops : List Op),
      (run_log rooms ops).2 =
        (List.range ((run_log rooms ops).1.sys.counter - 1)).map (fun i => idString (1 + i)) ∧
      (run_log rooms ops).2.Pairwise (fun s t => idNum s < idNum t) ∧
      (run_log rooms ops).2.Nodup) ∧
    (∀ (rooms : List Room) (st : CtrlState) (op : Op),
      st.sys.counter ≤ (apply_op rooms st op).sys.counter) := by
  refine ⟨⟨by decide, by decide, by decide, by decide⟩, idNum_idString, ?_, ?_, apply_op_counter_mono⟩
  · intro a b hab
    rw [idNum_idString, idNum_idString]
    exact hab
  · intro rooms ops
    obtain ⟨hcnt, hlog⟩ := run_log_ok rooms ops
    have hlen : (run_log rooms ops).1.sys.counter - 1 = (run_log rooms ops).2.length := by
      omega
    have hpw : (run_log rooms ops).2.Pairwise (fun s t => idNum s < idNum t) := by
      rw [hlog]
      rw [List.pairwise_map]
      have := List.pairwise_lt_range ((run_log rooms ops).2.length)
      exact this.imp (fun hab => by
        rw [idNum_idString, idNum_idString]
        omega)
    refine ⟨by rw [hlen]; exact hlog, hpw, ?_⟩
    exact hpw.imp (fun hab heq => by rw [heq] at hab; omega)

/-- Witness: the strict-increase clause at counters 3 < 7, and a concrete
two-create run issuing `R0001` then `R0002`. -/
theorem reservation_id_format_witness :
    idNum (idString 3) < idNum (idString 7) ∧
    (run_log hotel_rooms
      [Op.create 3 "a" "Single Room" (3, 10) (3, 12),
       Op.create 3 "b" "Double Room" (3, 10) (3, 12)]).2 =
      (List.range ((run_log hotel_rooms
        [Op.create 3 "a" "Single Room" (3, 10) (3, 12),
         Op.create 3 "b" "Double Room" (3, 10) (3, 12)]).1.sys.counter - 1)).map
        (fun i => idString (1 + i)) := by
  constructor
  · exact reservation_id_format_and_monotonicity.2.2.1 3 7 (by decide)
  · exact (reservation_id_format_and_monotonicity.2.2.2.1 hotel_rooms
      [Op.create 3 "a" "Single Room" (3, 10) (3, 12),
       Op.create 3 "b" "Double Room" (3, 10) (3, 12)]).1

/-- C6 — 30-day month rollover: the inclusive range from (1, 29) to
(2, 2) visits exactly (1,29), (1,30), (2,1), (2,2) in that order — never
(1,31) — and both `store_booking_range` and the availability loop act on
exactly these four dates, sharing the identical rollover rule. -/
theorem month_rollover_range :
    date_range 4 1 29 2 2 = some [(1, 29), (1, 30), (2, 1), (2, 2)] ∧
    (1, 31) ∉ [(1, 29), (1, 30), (2, 1), (2, 2)] ∧
    (∀ fuel, 4 ≤ fuel →
      date_range fuel 1 29 2 2 = some [(1, 29), (1, 30), (2, 1), (2, 2)]) ∧
    (∀ fuel name cal, 4 ≤ fuel →
      store_booking_range fuel 1 29 2 2 name cal =
        some (store_date 2 2 name (store_date 2 1 name (store_date 1 30 name
          (store_date 1 29 name cal))))) ∧
    (∀ fuel total name cal, 4 ≤ fuel →
      check_availability_loop fuel total name 1 29 2 2 cal =
        some ([(1, 29), (1, 30), (2, 1), (2, 2)].all
          (fun p => decide (get_booked_quantity p.1 p.2 name cal < total)))) := by
  have hdr : date_range 4 1 29 2 2 = some [(1, 29), (1, 30), (2, 1), (2, 2)] := by decide
  refine ⟨hdr, by decide, ?_, ?_, ?_⟩
  · intro fuel hf
    exact date_range_mono 4 fuel 1 29 2 2 _ hdr hf
  · intro fuel name cal hf
    have h2 := date_range_mono 4 fuel 1 29 2 2 _ hdr hf
    rw [store_range_eq_fold fuel 1 29 2 2 _ name cal h2]
    rfl
  · intro fuel total name cal hf
    have h2 := date_range_mono 4 fuel 1 29 2 2 _ hdr hf
    exact check_eq_all fuel 1 29 2 2 _ total name cal h2

/-- Witness: the store clause of the rollover theorem at fuel 4 on the
empty ledger. -/
theorem month_rollover_range_witness :
    store_booking_range 4 1 29 2 2 "A" [] =
      some (store_date 2 2 "A" (store_date 2 1 "A" (store_date 1 30 "A"
        (store_date 1 29 "A" [])))) :=
  month_rollover_range.2.2.2.1 4 "A" [] (by decide)

/-- A well-formed date under the 30-day-month rule: day between 1 and 30
(months are unbounded naturals, as in the code). -/
abbrev valid_date (p : Nat × Nat) : Prop := 1 ≤ p.2 ∧ p.2 ≤ 30

/-- Linear position of a date in the 30-day calendar. -/
def dateIdx (p : Nat × Nat) : Nat := 30 * p.1 + p.2

/-- Date at a linear position (left inverse of `dateIdx` on valid dates). -/
def ofIdx (i : Nat) : Nat × Nat := ((i - 1) / 30, (i - 1) % 30 + 1)

theorem ofIdx_dateIdx (p : Nat × Nat) (h : valid_date p) : ofIdx (dateIdx p) = p := by
  obtain ⟨m, d⟩ := p
  obtain ⟨h1, h2⟩ := h
  simp only [ofIdx, dateIdx]
  refine Prod.ext ?_ ?_
  · show (30 * m + d - 1) / 30 = m
    omega
  · show (30 * m + d - 1) % 30 + 1 = d
    omega

theorem dateIdx_ofIdx (i : Nat) (h : 1 ≤ i) : dateIdx (ofIdx i) = i := by
  simp only [ofIdx, dateIdx]
  omega

theorem valid_ofIdx (i : Nat) : valid_date (ofIdx i) := by
  simp only [ofIdx, valid_date]
  omega

theorem dateIdx_mk (m d : Nat) : dateIdx (m, d) = 30 * m + d := rfl

/-- Totality of the visited-dates loop: from a valid start date, with the
end `n` positions later and more than `n` fuel, the loop exits having
visited exactly the dates at positions `dateIdx start, …, dateIdx end`. -/
theorem date_range_total (n : Nat) : ∀ (fuel sm sd em ed : Nat),
    valid_date (sm, sd) → valid_date (em, ed) →
    dateIdx (sm, sd) + n = dateIdx (em, ed) → n < fuel →
    date_range fuel sm sd em ed =
      some ((List.range (n + 1)).map (fun k => ofIdx (dateIdx (sm, sd) + k))) := by
  induction n with
  | zero =>
    intro fuel sm sd em ed hs he hidx hf
    have hpair : (em, ed) = (sm, sd) := by
      have h2 := ofIdx_dateIdx (sm, sd) hs
      have h3 := ofIdx_dateIdx (em, ed) he
      have h4 : dateIdx (sm, sd) = dateIdx (em, ed) := by omega
      rw [h4, h3] at h2
      exact h2
    have he1 : em = sm := congrArg Prod.fst hpair
    have he2 : ed = sd := congrArg Prod.snd hpair
    rw [he1, he2] at hidx ⊢
    obtain ⟨f, rfl⟩ : ∃ f, fuel = f + 1 := ⟨fuel - 1, by omega⟩
    have hone : date_range (f + 1) sm sd sm sd = some [(sm, sd)] := by
      simp [date_range]
    have hmap : (List.range 1).map (fun k => ofIdx (dateIdx (sm, sd) + k)) =
        [ofIdx (dateIdx (sm, sd))] := by
      have h1 : List.range 1 = [0] := rfl
      rw [h1, List.map_singleton, Nat.add_zero]
    rw [hone, hmap, ofIdx_dateIdx (sm, sd) hs]
  | succ n2 ih =>
    intro fuel sm sd em ed hs he hidx hf
    have hsd1 : 1 ≤ sd := hs.1
    have hsd2 : sd ≤ 30 := hs.2
    obtain ⟨f, rfl⟩ : ∃ f, fuel = f + 1 := ⟨fuel - 1, by omega⟩
    rw [dateIdx_mk, dateIdx_mk] at hidx
    have hne : ¬(sm = em ∧ sd = ed) := by
      rintro ⟨h1, h2⟩
      subst h1
      subst h2
      omega
    by_cases hroll : sd + 1 > 30
    · have hs2 : valid_date (sm + 1, 1) := ⟨by omega, by omega⟩
      have hidx2 : dateIdx (sm + 1, 1) = dateIdx (sm, sd) + 1 := by
        rw [dateIdx_mk, dateIdx_mk]
        omega
      have hih := ih f (sm + 1) 1 em ed hs2 he
        (by rw [dateIdx_mk, dateIdx_mk]; omega) (by omega)
      simp only [date_range, if_neg hne, if_pos hroll, hih, Option.map_some',
        Option.some_inj]
      rw [show List.range (n2 + 1 + 1) = 0 :: (List.range (n2 + 1)).map Nat.succ from
        List.range_succ_eq_map (n2 + 1)]
      rw [List.map_cons, List.map_map]
      congr 1
      · rw [Nat.add_zero, ofIdx_dateIdx (sm, sd) hs]
      · apply List.map_congr_left
        intro a ha
        simp only [Function.comp_apply, hidx2]
        congr 1
        omega
    · have hs2 : valid_date (sm, sd + 1) := ⟨by omega, by omega⟩
      have hidx2 : dateIdx (sm, sd + 1) = dateIdx (sm, sd) + 1 := by
        rw [dateIdx_mk, dateIdx_mk]
        omega
      have hih := ih f sm (sd + 1) em ed hs2 he
        (by rw [dateIdx_mk, dateIdx_mk]; omega) (by omega)
      simp only [date_range, if_neg hne, if_neg hroll, hih, Option.map_some',
        Option.some_inj]
      rw [show List.range (n2 + 1 + 1) = 0 :: (List.range (n2 + 1)).map Nat.succ from
        List.range_succ_eq_map (n2 + 1)]
      rw [List.map_cons, List.map_map]
      congr 1
      · rw [Nat.add_zero, ofIdx_dateIdx (sm, sd) hs]
      · apply List.map_congr_left
        intro a ha
        simp only [Function.comp_apply, hidx2]
        congr 1
        omega

/-- For a reversed range (end chronologically before start) the loops'
stop condition is never met: with any fuel, `date_range` and
`store_booking_range` run out without exiting. -/
theorem date_range_reversed (em ed : Nat) (he : valid_date (em, ed)) :
    ∀ (fuel sm sd : Nat), valid_date (sm, sd) → dateIdx (em, ed) < dateIdx (sm, sd) →
    date_range fuel sm sd em ed = none ∧
      ∀ name cal, store_booking_range fuel sm sd em ed name cal = none := by
  intro fuel
  induction fuel with
  | zero =>
    intro sm sd hs hlt
    exact ⟨rfl, fun name cal => rfl⟩
  | succ f ih =>
    intro sm sd hs hlt
    have hsd1 : 1 ≤ sd := hs.1
    have hsd2 : sd ≤ 30 := hs.2
    rw [dateIdx_mk, dateIdx_mk] at hlt
    have hne : ¬(sm = em ∧ sd = ed) := by
      rintro ⟨h1, h2⟩
      subst h1
      subst h2
      omega
    by_cases hroll : sd + 1 > 30
    · have hs2 : valid_date (sm + 1, 1) := ⟨by omega, by omega⟩
      have hlt2 : dateIdx (em, ed) < dateIdx (sm + 1, 1) := by
        rw [dateIdx_mk, dateIdx_mk]
        omega
      obtain ⟨hdr, hst⟩ := ih (sm + 1) 1 hs2 hlt2
      constructor
      · simp only [date_range, if_neg hne, if_pos hroll, hdr, Option.map_none']
      · intro name cal
        simp only [store_booking_range, if_neg hne, if_pos hroll]
        exact hst name _
    · have hs2 : valid_date (sm, sd + 1) := ⟨by omega, by omega⟩
      have hlt2 : dateIdx (em, ed) < dateIdx (sm, sd + 1) := by
        rw [dateIdx_mk, dateIdx_mk]
        omega
      obtain ⟨hdr, hst⟩ := ih sm (sd + 1) hs2 hlt2
      constructor
      · simp only [date_range, if_neg hne, if_neg hroll, hdr, Option.map_none']
      · intro name cal
        simp only [store_booking_range, if_neg hne, if_neg hroll]
        exact hst name _

/-- C7 — Range-iteration totality: for valid dates with start at or before
end, the day-by-day loops exit within `positions + 1` fuel, visiting each
date of the inclusive range exactly once (`store_booking_range` and the
availability loop included); a single-day range visits exactly its one
date; and for a reversed range the stop condition is never met, with
`date_range` and `store_booking_range` exhausting any fuel. -/
theorem range_iteration_totality (sm sd em ed : Nat)
    (hs : valid_date (sm, sd)) (he : valid_date (em, ed)) :
    (∀ fuel, dateIdx (sm, sd) ≤ dateIdx (em, ed) →
      dateIdx (em, ed) + 1 - dateIdx (sm, sd) ≤ fuel →
      (date_range fuel sm sd em ed =
        some ((List.range (dateIdx (em, ed) + 1 - dateIdx (sm, sd))).map
          (fun k => ofIdx (dateIdx (sm, sd) + k))) ∧
       (∀ l, date_range fuel sm sd em ed = some l →
         l.Nodup ∧
         (∀ p, p ∈ l ↔ valid_date p ∧ dateIdx (sm, sd) ≤ dateIdx p ∧
           dateIdx p ≤ dateIdx (em, ed))) ∧
       (∀ name cal, ∃ c, store_booking_range fuel sm sd em ed name cal = some c) ∧
       (∀ total name cal, ∃ b,
         check_availability_loop fuel total name sm sd em ed cal = some b))) ∧
    (∀ fuel, 1 ≤ fuel → date_range fuel sm sd sm sd = some [(sm, sd)]) ∧
    (dateIdx (em, ed) < dateIdx (sm, sd) → ∀ fuel,
      date_range fuel sm sd em ed = none ∧
      ∀ name cal, store_booking_range fuel sm sd em ed name cal = none) := by
  have hidx1 : 1 ≤ dateIdx (sm, sd) := by
    have := hs.1
    rw [dateIdx_mk]
    omega
  refine ⟨?_, ?_, ?_⟩
  · intro fuel hle hf
    have hdr := date_range_total (dateIdx (em, ed) - dateIdx (sm, sd)) fuel sm sd em ed hs he
      (by omega) (by omega)
    have hcount : dateIdx (em, ed) + 1 - dateIdx (sm, sd) =
        (dateIdx (em, ed) - dateIdx (sm, sd)) + 1 := by omega
    rw [hcount]
    refine ⟨hdr, ?_, ?_, ?_⟩
    · intro l hl
      rw [hdr, Option.some_inj] at hl
      subst hl
      constructor
      · refine List.Nodup.map ?_ (List.nodup_range _)
        intro k1 k2 hk
        have hk2 : ofIdx (dateIdx (sm, sd) + k1) = ofIdx (dateIdx (sm, sd) + k2) := hk
        have e1 := dateIdx_ofIdx (dateIdx (sm, sd) + k1) (by omega)
        have e2 := dateIdx_ofIdx (dateIdx (sm, sd) + k2) (by omega)
        rw [hk2] at e1
        omega
      · intro p
        constructor
        · intro hp
          obtain ⟨k, hk, hpk⟩ := List.mem_map.mp hp
          have hkr := List.mem_range.mp hk
          subst hpk
          refine ⟨valid_ofIdx _, ?_, ?_⟩ <;>
            rw [dateIdx_ofIdx (dateIdx (sm, sd) + k) (by omega)] <;> omega
        · rintro ⟨hvp, hp1, hp2⟩
          refine List.mem_map.mpr ⟨dateIdx p - dateIdx (sm, sd), ?_, ?_⟩
          · exact List.mem_range.mpr (by omega)
          · rw [show dateIdx (sm, sd) + (dateIdx p - dateIdx (sm, sd)) = dateIdx p from
              by omega]
            exact ofIdx_dateIdx p hvp
    · intro name cal
      exact ⟨_, store_range_eq_fold fuel sm sd em ed _ name cal hdr⟩
    · intro total name cal
      exact ⟨_, check_eq_all fuel sm sd em ed _ total name cal hdr⟩
  · intro fuel hf
    obtain ⟨f, rfl⟩ : ∃ f, fuel = f + 1 := ⟨fuel - 1, by omega⟩
    simp [date_range]
  · intro hlt fuel
    exact date_range_reversed em ed he fuel sm sd hs hlt

/-- Witness: the totality clause at the range (1, 29)–(2, 2) with fuel 4,
the single-day clause at (5, 7), and the reversed clause at
(1, 5)–(1, 3). -/
theorem range_iteration_totality_witness :
    date_range 4 1 29 2 2 =
      some ((List.range (dateIdx (2, 2) + 1 - dateIdx (1, 29))).map
        (fun k => ofIdx (dateIdx (1, 29) + k))) ∧
    date_range 1 5 7 5 7 = some [(5, 7)] ∧
    date_range 9 1 5 1 3 = none ∧
    store_booking_range 9 1 5 1 3 "A" [] = none := by
  refine ⟨?_, ?_, ?_, ?_⟩
  · exact ((range_iteration_totality 1 29 2 2 (by decide) (by decide)).1 4
      (by decide) (by decide)).1
  · exact (range_iteration_totality 5 7 9 9 (by decide) (by decide)).2.1 1 (by decide)
  · exact ((range_iteration_totality 1 5 1 3 (by decide) (by decide)).2.2 (by decide) 9).1
  · exact ((range_iteration_totality 1 5 1 3 (by decide) (by decide)).2.2 (by decide) 9).2
      "A" []

/-- Element of the list returned by `get_available_room_types`: the dict
with keys `name`, `max_guests`, `price` (`reservation_system.py` lines
62-66). -/
structure RoomTypeInfo where
  name : String
  max_guests : Nat
  price : Nat
deriving Repr, DecidableEq

/-- The distinct room types of the hotel
(`set(room.room_type for room in self.hotel.rooms)`), as a deduplicated
list; Python set iteration order is arbitrary, so only membership in the
result is externally meaningful. -/
def room_types_of (rooms : List Room) : List String :=
  (rooms.map (fun r => r.room_type)).dedup

/-- The `next(room for room in ... if room.room_type == rtype)` sample:
the first room of the type. -/
def first_room (rooms : List Room) (rt : String) : Option Room :=
  rooms.find? (fun r => r.room_type == rt)

/-- Per-type loop of `ReservationSystem.get_available_room_types`
(`reservation_system.py` lines 48-67): keep a type exactly when its
sample room fits the guest count and the availability check passes
(short-circuit: the check only runs when the guest test passes); `none`
models a diverging availability check. -/
def get_available_room_types_aux (fuel : Nat) (rooms : List Room)
    (check_in check_out : Nat × Nat) (num_guests : Nat) (cal : Calendar) :
    List String → Option (List RoomTypeInfo)
  | [] => some []
  | rt :: rest =>
    match first_room rooms rt with
    | none => none
    | some r =>
      if num_guests ≤ r.max_guests then
        match check_availability fuel rooms rt check_in check_out cal with
        | none => none
        | some true =>
          (get_available_room_types_aux fuel rooms check_in check_out num_guests cal
            rest).map (fun l => ⟨rt, r.max_guests, r.price⟩ :: l)
        | some false =>
          get_available_room_types_aux fuel rooms check_in check_out num_guests cal rest
      else get_available_room_types_aux fuel rooms check_in check_out num_guests cal rest

/-- `ReservationSystem.get_available_room_types`. -/
def get_available_room_types (fuel : Nat) (rooms : List Room)
    (check_in check_out : Nat × Nat) (num_guests : Nat) (cal : Calendar) :
    Option (List RoomTypeInfo) :=
  get_available_room_types_aux fuel rooms check_in check_out num_guests cal
    (room_types_of rooms)

/-- Membership characterization of the per-type loop. -/
theorem get_available_room_types_aux_mem (fuel : Nat) (rooms : List Room)
    (ci co : Nat × Nat) (ng : Nat) (cal : Calendar) :
    ∀ (types : List String) (l : List RoomTypeInfo),
    get_available_room_types_aux fuel rooms ci co ng cal types = some l →
    ∀ info, info ∈ l ↔ ∃ rt r, rt ∈ types ∧ first_room rooms rt = some r ∧
      ng ≤ r.max_guests ∧ check_availability fuel rooms rt ci co cal = some true ∧
      info = ⟨rt, r.max_guests, r.price⟩ := by
  intro types
  induction types with
  | nil =>
    intro l h info
    simp only [get_available_room_types_aux, Option.some_inj] at h
    subst h
    simp
  | cons rt rest ih =>
    intro l h info
    rcases hfr : first_room rooms rt with _ | r
    · simp only [get_available_room_types_aux, hfr] at h
      exact absurd h (by simp)
    · simp only [get_available_room_types_aux, hfr] at h
      by_cases hg : ng ≤ r.max_guests
      · rw [if_pos hg] at h
        rcases hchk : check_availability fuel rooms rt ci co cal with _ | b
        · rw [hchk] at h
          exact absurd h (by simp)
        · rcases b with _ | _
          · rw [hchk] at h
            have hmem := ih l h info
            constructor
            · intro hp
              obtain ⟨rt2, r2, ha, hb, hc, hd, he⟩ := hmem.mp hp
              exact ⟨rt2, r2, List.mem_cons_of_mem rt ha, hb, hc, hd, he⟩
            · rintro ⟨rt2, r2, ha, hb, hc, hd, he⟩
              rcases List.mem_cons.mp ha with hrt | hrt
              · subst hrt
                rw [hfr, Option.some_inj] at hb
                subst hb
                rw [hd] at hchk
                exact absurd hchk (by simp)
              · exact hmem.mpr ⟨rt2, r2, hrt, hb, hc, hd, he⟩
          · rw [hchk] at h
            obtain ⟨l2, hl2, rfl⟩ := Option.map_eq_some'.mp h
            have hmem := ih l2 hl2
            constructor
            · intro hp
              rcases List.mem_cons.mp hp with hinfo | hinfo
              · exact ⟨rt, r, List.mem_cons_self rt rest, hfr, hg, hchk, hinfo⟩
              · obtain ⟨rt2, r2, ha, hb, hc, hd, he⟩ := (hmem info).mp hinfo
                exact ⟨rt2, r2, List.mem_cons_of_mem rt ha, hb, hc, hd, he⟩
            · rintro ⟨rt2, r2, ha, hb, hc, hd, he⟩
              rcases List.mem_cons.mp ha with hrt | hrt
              · subst hrt
                rw [hfr, Option.some_inj] at hb
                subst hb
                rw [he]
                exact List.mem_cons_self _ _
              · exact List.mem_cons_of_mem _ ((hmem info).mpr ⟨rt2, r2, hrt, hb, hc, hd, he⟩)
      · rw [if_neg hg] at h
        have hmem := ih l h info
        constructor
        · intro hp
          obtain ⟨rt2, r2, ha, hb, hc, hd, he⟩ := hmem.mp hp
          exact ⟨rt2, r2, List.mem_cons_of_mem rt ha, hb, hc, hd, he⟩
        · rintro ⟨rt2, r2, ha, hb, hc, hd, he⟩
          rcases List.mem_cons.mp ha with hrt | hrt
          · subst hrt
            rw [hfr, Option.some_inj] at hb
            subst hb
            exact absurd hc hg
          · exact hmem.mpr ⟨rt2, r2, hrt, hb, hc, hd, he⟩

/-- C9 — Available-room-type listing: when the call returns,
its result contains exactly the room types of the catalog whose sample
room accommodates the guest count and whose availability check over the
given range is `True`, each listed with that type's name, `max_guests`
and `price`; types failing either condition are excluded.  The catalog's
type list is exactly the set of types of the room list. -/
theorem available_room_types_exact (fuel : Nat) (rooms : List Room) (check_in check_out : Nat × Nat)
    (num_guests : Nat) (cal : Calendar) (l : List RoomTypeInfo)
    (h : get_available_room_types fuel rooms check_in check_out num_guests cal = some l) :
    (∀ info, info ∈ l ↔ ∃ rt r, rt ∈ room_types_of rooms ∧ first_room rooms rt = some r ∧
      num_guests ≤ r.max_guests ∧
      check_availability fuel rooms rt check_in check_out cal = some true ∧
      info = ⟨rt, r.max_guests, r.price⟩) ∧
    (∀ rt, rt ∈ room_types_of rooms ↔ ∃ r ∈ rooms, r.room_type = rt) := by
  constructor
  · exact get_available_room_types_aux_mem fuel rooms check_in check_out num_guests cal
      (room_types_of rooms) l h
  · intro rt
    unfold room_types_of
    rw [List.mem_dedup, List.mem_map]

/-- Witness: at the default hotel, a party of 5 on the empty ledger is
offered exactly the Family Room. -/
theorem available_room_types_witness :
    (⟨"Family Room", 6, 200⟩ : RoomTypeInfo) ∈ [(⟨"Family Room", 6, 200⟩ : RoomTypeInfo)] ∧
    ((⟨"Single Room", 2, 100⟩ : RoomTypeInfo) ∈ [(⟨"Family Room", 6, 200⟩ : RoomTypeInfo)] →
      False) := by
  constructor
  · exact ((available_room_types_exact 2 hotel_rooms (1, 1) (1, 2) 5 []
      [⟨"Family Room", 6, 200⟩] (by decide)).1 ⟨"Family Room", 6, 200⟩).mpr
      ⟨"Family Room", ⟨116, "Family Room", 3, 6, 200, true⟩,
        by decide, by decide, by decide, by decide, rfl⟩
  · intro hmem
    obtain ⟨rt, r, _, hfr, hg, _, he⟩ :=
      ((available_room_types_exact 2 hotel_rooms (1, 1) (1, 2) 5 []
        [⟨"Family Room", 6, 200⟩] (by decide)).1 ⟨"Single Room", 2, 100⟩).mp hmem
    have hrt : rt = "Single Room" := (congrArg RoomTypeInfo.name he).symm
    subst hrt
    have hr : r = ⟨101, "Single Room", 1, 2, 100, true⟩ := by
      have : first_room hotel_rooms "Single Room" =
          some ⟨101, "Single Room", 1, 2, 100, true⟩ := by decide
      rw [this, Option.some_inj] at hfr
      exact hfr.symm
    subst hr
    exact absurd hg (by decide)
